import Mathlib

/-!
Verification of the zkbench-py computational core.

A shallow embedding, in Lean 4, of the zkbench benchmarking support
library: descriptive statistics, the canonical JSON report schema and its
serializer, content hashing (SHA-256 over little-endian `uint32` packings),
and platform detection.

Modelling conventions:
* Python `float` values are modelled as exact numbers: rationals (`ℚ`) for
  the statistics inputs, and finite decimal fractions (`Dec`) for the
  values stored in schema entities (every value `json.dumps` can print is a
  finite decimal).  `math.sqrt` is `Real.sqrt`.
* A Python function that can raise becomes a function into `Option`
  (or `Except` when the error message matters); `none`/`.error` is a raise.
* Python `dict`s are insertion-ordered association lists.
* The ambient operating-system state read by the platform-detection code
  is an explicit `Env` record threaded through those functions.
-/

namespace Zkbench

/-! ## Hashing — `src/zkbench/utils.py`

`compute_hash` is `hashlib.sha256(data).hexdigest()`; `hashlib` is the
Python standard library, so SHA-256 itself is modelled here from FIPS
180-4 (words are `Nat`s reduced mod `2^32`).  Bytes are `Nat`s below 256.
-/

/-- Reduce to a 32-bit word. -/
def w32 (n : Nat) : Nat := n % 4294967296

/-- Right-rotation of a 32-bit word, arithmetically:
`(x >>> n) ||| (x <<< (32 - n))` restricted to 32 bits. -/
def rotr32 (x n : Nat) : Nat := (x / 2 ^ n) + (x % 2 ^ n) * 2 ^ (32 - n)

/-- `Ch(x,y,z) = (x ∧ y) ⊕ (¬x ∧ z)`; `¬x` is `x ⊕ 0xFFFFFFFF`. -/
def shaCh (x y z : Nat) : Nat := (x &&& y) ^^^ ((x ^^^ 4294967295) &&& z)

/-- `Maj(x,y,z) = (x ∧ y) ⊕ (x ∧ z) ⊕ (y ∧ z)`. -/
def shaMaj (x y z : Nat) : Nat := (x &&& y) ^^^ (x &&& z) ^^^ (y &&& z)

def bigSigma0 (x : Nat) : Nat := rotr32 x 2 ^^^ rotr32 x 13 ^^^ rotr32 x 22

def bigSigma1 (x : Nat) : Nat := rotr32 x 6 ^^^ rotr32 x 11 ^^^ rotr32 x 25

def smallSigma0 (x : Nat) : Nat := rotr32 x 7 ^^^ rotr32 x 18 ^^^ (x / 2 ^ 3)

def smallSigma1 (x : Nat) : Nat := rotr32 x 17 ^^^ rotr32 x 19 ^^^ (x / 2 ^ 10)

/-- The 64 SHA-256 round constants (FIPS 180-4 §4.2.2). -/
def shaK : List Nat :=
  [1116352408, 1899447441, 3049323471, 3921009573, 961987163, 1508970993,
   2453635748, 2870763221, 3624381080, 310598401, 607225278, 1426881987,
   1925078388, 2162078206, 2614888103, 3248222580, 3835390401, 4022224774,
   264347078, 604807628, 770255983, 1249150122, 1555081692, 1996064986,
   2554220882, 2821834349, 2952996808, 3210313671, 3336571891, 3584528711,
   113926993, 338241895, 666307205, 773529912, 1294757372, 1396182291,
   1695183700, 1986661051, 2177026350, 2456956037, 2730485921, 2820302411,
   3259730800, 3345764771, 3516065817, 3600352804, 4094571909, 275423344,
   430227734, 506948616, 659060556, 883997877, 958139571, 1322822218,
   1537002063, 1747873779, 1955562222, 2024104815, 2227730452, 2361852424,
   2428436474, 2756734187, 3204031479, 3329325298]

/-- The eight 32-bit working variables of the SHA-256 state. -/
structure Sha8 where
  a : Nat
  b : Nat
  c : Nat
  d : Nat
  e : Nat
  f : Nat
  g : Nat
  h : Nat

/-- Initial hash value (FIPS 180-4 §5.3.3). -/
def shaH0 : Sha8 :=
  ⟨1779033703, 3144134277, 1013904242, 2773480762,
   1359893119, 2600822924, 528734635, 1541459225⟩

/-- The message length in bits as 8 big-endian bytes. -/
def beBytes8 (n : Nat) : List Nat :=
  [n / 2 ^ 56 % 256, n / 2 ^ 48 % 256, n / 2 ^ 40 % 256, n / 2 ^ 32 % 256,
   n / 2 ^ 24 % 256, n / 2 ^ 16 % 256, n / 2 ^ 8 % 256, n % 256]

/-- SHA-256 padding: `0x80`, zeros to 56 mod 64, then the bit length. -/
def shaPad (msg : List Nat) : List Nat :=
  msg ++ 128 :: List.replicate ((119 - msg.length % 64) % 64) 0 ++
    beBytes8 (8 * msg.length)

/-- Big-endian 32-bit words from bytes. -/
def beWords : List Nat → List Nat
  | b0 :: b1 :: b2 :: b3 :: rest =>
    (((b0 * 256 + b1) * 256 + b2) * 256 + b3) :: beWords rest
  | _ => []

/-- One step of the message schedule, on the reversed (most recent first)
word list: `w[t] = σ₁(w[t-2]) + w[t-7] + σ₀(w[t-15]) + w[t-16]`. -/
def shaExtend (rws : List Nat) : List Nat :=
  w32 (smallSigma1 (rws.getD 1 0) + rws.getD 6 0 +
    smallSigma0 (rws.getD 14 0) + rws.getD 15 0) :: rws

def shaScheduleRev (initRev : List Nat) : Nat → List Nat
  | 0 => initRev
  | k + 1 => shaExtend (shaScheduleRev initRev k)

/-- One compression round (FIPS 180-4 §6.2.2 step 3). -/
def shaRound (st : Sha8) (kw : Nat × Nat) : Sha8 :=
  let t1 := w32 (st.h + bigSigma1 st.e + shaCh st.e st.f st.g + kw.1 + kw.2)
  let t2 := w32 (bigSigma0 st.a + shaMaj st.a st.b st.c)
  ⟨w32 (t1 + t2), st.a, st.b, st.c, w32 (st.d + t1), st.e, st.f, st.g⟩

/-- Compress one 64-byte block into the running state. -/
def shaCompressBlock (st : Sha8) (block : List Nat) : Sha8 :=
  let ws := (shaScheduleRev (beWords block).reverse 48).reverse
  let fin := (shaK.zip ws).foldl shaRound st
  ⟨w32 (st.a + fin.a), w32 (st.b + fin.b), w32 (st.c + fin.c),
   w32 (st.d + fin.d), w32 (st.e + fin.e), w32 (st.f + fin.f),
   w32 (st.g + fin.g), w32 (st.h + fin.h)⟩

def chunk64Go : Nat → List Nat → List (List Nat)
  | 0, _ => []
  | _, [] => []
  | fuel + 1, l => l.take 64 :: chunk64Go fuel (l.drop 64)

/-- Split into 64-byte blocks. -/
def chunk64 (l : List Nat) : List (List Nat) := chunk64Go l.length l

/-- Lowercase hexadecimal digit. -/
def hexDigitChar (n : Nat) : Char :=
  if n < 10 then Char.ofNat (48 + n) else Char.ofNat (87 + n)

/-- A 32-bit word as 8 lowercase hex characters. -/
def word8Hex (w : Nat) : List Char :=
  [hexDigitChar (w / 2 ^ 28 % 16), hexDigitChar (w / 2 ^ 24 % 16),
   hexDigitChar (w / 2 ^ 20 % 16), hexDigitChar (w / 2 ^ 16 % 16),
   hexDigitChar (w / 2 ^ 12 % 16), hexDigitChar (w / 2 ^ 8 % 16),
   hexDigitChar (w / 2 ^ 4 % 16), hexDigitChar (w % 16)]

/-- SHA-256 of a byte sequence, as 64 lowercase hex characters. -/
def sha256Hex (msg : List Nat) : List Char :=
  let fin := (chunk64 (shaPad msg)).foldl shaCompressBlock shaH0
  word8Hex fin.a ++ word8Hex fin.b ++ word8Hex fin.c ++ word8Hex fin.d ++
    word8Hex fin.e ++ word8Hex fin.f ++ word8Hex fin.g ++ word8Hex fin.h

/-- `compute_hash` (utils.py lines 41-50): the SHA-256 hex digest of raw
bytes. -/
def compute_hash (data : List Nat) : String := String.mk (sha256Hex data)

/-- One value as 4 little-endian bytes of its value mod `2^32` (the
`dtype="<u4"` canonicalization). -/
def le4 (v : Nat) : List Nat :=
  [v % 256, v / 256 % 256, v / 65536 % 256, v / 16777216 % 256]

/-- `compute_array_hash` (utils.py lines 53-71).  Both source branches
(`tolist()`-capable array objects and plain lists) reduce the input to
the same flat numeric sequence, which this embedding takes directly;
elements are cast to `uint32` and packed little-endian. -/
def compute_array_hash (values : List Nat) : String :=
  compute_hash ((values.map (fun v => le4 (v % 4294967296))).flatten)

/-! ## Statistics — `src/zkbench/statistics.py` -/

/-- `calculate_statistics` (statistics.py lines 23-47).  Returns
`none` exactly where the Python raises `ValueError` (empty input).
`mean = sum(values) / n`; for `n < 2` the stdev is `0.0`; otherwise
`stdev = sqrt(sum((x - mean)**2 for x in values) / (n - 1))`. -/
noncomputable def calculate_statistics (values : List ℚ) : Option (ℚ × ℝ) :=
  if values.isEmpty then none
  else
    let n := values.length
    let mean : ℚ := values.sum / n
    if n < 2 then some (mean, 0)
    else
      let variance : ℚ := (values.map (fun x => (x - mean) ^ 2)).sum / ((n : ℚ) - 1)
      some (mean, Real.sqrt (variance : ℝ))

/-- `calculate_confidence_interval` (statistics.py lines 50-89).  Returns
`none` exactly where the Python raises `ValueError` (`n <= 0`).  The
z-score is selected by equality on the `confidence` argument, falling back
to `1.96`; `se = stdev / sqrt(n)`, `margin = z * se`. -/
noncomputable def calculate_confidence_interval (mean stdev : ℝ) (n : ℤ)
    (confidence : ℚ) : Option (ℝ × ℝ) :=
  if n ≤ 0 then none
  else
    let z : ℝ := if confidence = 0.95 then 1.96
      else if confidence = 0.99 then 2.576
      else 1.96
    let se : ℝ := stdev / Real.sqrt (n : ℝ)
    let margin := z * se
    some (mean - margin, mean + margin)

/-- The arithmetic mean as the spec phrases it: the sum over all positions
divided by the number of values. -/
noncomputable def specArithmeticMean (l : List ℚ) : ℚ :=
  (∑ i : Fin l.length, l.get i) / l.length

/-- Sample standard deviation with Bessel's correction, as the spec
phrases it: `sqrt(Σ (xᵢ - mean)² / (n - 1))`. -/
noncomputable def specBesselStdev (l : List ℚ) (mean : ℚ) : ℝ :=
  Real.sqrt (((∑ i : Fin l.length, ((l.get i : ℝ) - (mean : ℝ)) ^ 2)) / ((l.length : ℝ) - 1))

/-! ## The canonical JSON data model — `src/zkbench/schema.py`

Python `float`/`int` values stored in schema entities are modelled as
exact finite decimals (`Dec`), which is the set of numbers Python's JSON
serializer prints in plain positional notation.  A canonical mapping
(the result of a Python `to_dict`) is an insertion-ordered association
list, the faithful rendering of an insertion-ordered Python `dict`. -/

/-- A finite decimal: the number `m / 10 ^ e`.  `e = 0` plays the role of a
Python `int`; `e > 0` a `float` printed with `e` digits after the point. -/
structure Dec where
  m : Int
  e : Nat
deriving DecidableEq, Repr

/-- The rational value denoted by a `Dec`. -/
def Dec.toRat (d : Dec) : ℚ := (d.m : ℚ) / (10 : ℚ) ^ d.e

/-- A JSON document: the codomain of the `to_dict` canonical-mapping
operations and the parse result of the JSON reader.  Objects are
insertion-ordered association lists. -/
inductive Json where
  | null : Json
  | bool (b : Bool) : Json
  | num (d : Dec) : Json
  | str (s : String) : Json
  | arr (elems : List Json) : Json
  | obj (members : List (String × Json)) : Json

/-- `MetricValue` (schema.py lines 27-42). -/
structure MetricValue where
  value : Dec
  unit : String
  lower_value : Option Dec := none
  upper_value : Option Dec := none

/-- `MetricValue.to_dict`: `value` and `unit` always; each bound only when
present. -/
def MetricValue.to_dict (mv : MetricValue) : List (String × Json) :=
  [("value", Json.num mv.value), ("unit", Json.str mv.unit)] ++
    (match mv.lower_value with
     | some l => [("lower_value", Json.num l)]
     | none => []) ++
    (match mv.upper_value with
     | some u => [("upper_value", Json.num u)]
     | none => [])

/-- `TestVectors` (schema.py lines 45-58). -/
structure TestVectors where
  input_hash : String
  output_hash : String
  verified : Bool

def TestVectors.to_dict (tv : TestVectors) : List (String × Json) :=
  [("input_hash", Json.str tv.input_hash),
   ("output_hash", Json.str tv.output_hash),
   ("verified", Json.bool tv.verified)]

/-- `BenchmarkResult` (schema.py lines 61-86). -/
structure BenchmarkResult where
  latency : Option MetricValue := none
  memory : Option MetricValue := none
  throughput : Option MetricValue := none
  iterations : Int := 0
  test_vectors : Option TestVectors := none
  metadata : List (String × Json) := []

/-- `BenchmarkResult.to_dict`: each field only under the source's
presence test (`is not None`, `> 0`, non-empty dict). -/
def BenchmarkResult.to_dict (r : BenchmarkResult) : List (String × Json) :=
  (match r.latency with
   | some mv => [("latency", Json.obj mv.to_dict)]
   | none => []) ++
  (match r.memory with
   | some mv => [("memory", Json.obj mv.to_dict)]
   | none => []) ++
  (match r.throughput with
   | some mv => [("throughput", Json.obj mv.to_dict)]
   | none => []) ++
  (if r.iterations > 0 then [("iterations", Json.num ⟨r.iterations, 0⟩)] else []) ++
  (match r.test_vectors with
   | some tv => [("test_vectors", Json.obj tv.to_dict)]
   | none => []) ++
  (if r.metadata.isEmpty then [] else [("metadata", Json.obj r.metadata)])

/-- `Platform` (schema.py lines 89-110).  The dataclass declares exactly
the fields `os`, `arch`, `cpu_count` and `cpu_vendor` — there is no
`gpu_vendor` field in the source. -/
structure Platform where
  os : String
  arch : String
  cpu_count : Int
  cpu_vendor : Option String := none

/-- The keyword parameters accepted by the `Platform` dataclass
constructor, i.e. its declared fields in order (schema.py lines 93-96). -/
def Platform.init_keywords : List String :=
  ["os", "arch", "cpu_count", "cpu_vendor"]

/-- `Platform.to_dict` (schema.py lines 102-110): `os`, `arch`,
`cpu_count` always, `cpu_vendor` only when present. -/
def Platform.to_dict (p : Platform) : List (String × Json) :=
  [("os", Json.str p.os), ("arch", Json.str p.arch),
   ("cpu_count", Json.num ⟨p.cpu_count, 0⟩)] ++
  (match p.cpu_vendor with
   | some v => [("cpu_vendor", Json.str v)]
   | none => [])

/-- `Metadata` (schema.py lines 113-146). -/
structure Metadata where
  implementation : String
  version : String
  commit_sha : String
  timestamp : String
  platform : Platform

def Metadata.to_dict (md : Metadata) : List (String × Json) :=
  [("implementation", Json.str md.implementation),
   ("version", Json.str md.version),
   ("commit_sha", Json.str md.commit_sha),
   ("timestamp", Json.str md.timestamp),
   ("platform", Json.obj md.platform.to_dict)]

/-- `BenchmarkReport` (schema.py lines 149-164). -/
structure BenchmarkReport where
  metadata : Metadata
  benchmarks : List (String × BenchmarkResult) := []

def BenchmarkReport.to_dict (r : BenchmarkReport) : List (String × Json) :=
  [("metadata", Json.obj r.metadata.to_dict),
   ("benchmarks", Json.obj (r.benchmarks.map
      (fun nb => (nb.1, Json.obj nb.2.to_dict))))]

/-! ## Platform detection — `src/zkbench/platform_info.py`

The ambient operating-system state those functions read is packaged as an
explicit `Env`.  Each field is the outcome of one external query exactly
as the source consumes it: `none` models the exception / missing-tool /
timeout cases that the source swallows. -/

/-- The operating-system facts read by platform_info.py. -/
structure Env where
  /-- `platform.system()`. -/
  system : String
  /-- `platform.machine()`. -/
  machine : String
  /-- `os.cpu_count()`; `none` when the OS reports no count. -/
  cpuCount : Option Nat
  /-- The lines of `/proc/cpuinfo`; `none` when `open` raises `OSError`. -/
  procCpuinfo : Option (List String)
  /-- stdout of a successful `sysctl -n machdep.cpu.brand_string`;
  `none` on `CalledProcessError` / `FileNotFoundError`. -/
  sysctlBrand : Option String
  /-- The `PROCESSOR_IDENTIFIER` environment variable. -/
  processorIdentifier : Option String
  /-- `(returncode, stdout)` of `nvidia-smi --query-gpu=name ...`;
  `none` on `FileNotFoundError` / `TimeoutExpired`. -/
  nvidiaSmi : Option (Int × String)
  /-- `(returncode, stdout)` of `rocm-smi --showproductname`. -/
  rocmSmi : Option (Int × String)
  /-- `(returncode, stdout)` of `system_profiler SPDisplaysDataType`. -/
  systemProfiler : Option (Int × String)

/-- `re.search(r":\s*(.+)", line)` followed by `.group(1).strip()`:
everything after the first colon, trimmed; failure when there is no colon
or nothing printable after it. -/
def afterColonTrimmed (line : String) : Option String :=
  match line.splitOn ":" with
  | [] => none
  | [_] => none
  | _ :: rest =>
    let t := (String.intercalate ":" rest).trim
    if t = "" then none else some t

/-- `_get_cpu_vendor_linux` (platform_info.py lines 50-61): the first
`model name` line of `/proc/cpuinfo` that has text after its colon. -/
def get_cpu_vendor_linux (env : Env) : Option String :=
  match env.procCpuinfo with
  | none => none
  | some lines =>
    lines.findSome? (fun line =>
      if line.startsWith "model name" then afterColonTrimmed line else none)

/-- `_get_cpu_vendor_macos` (platform_info.py lines 64-76). -/
def get_cpu_vendor_macos (env : Env) : Option String :=
  env.sysctlBrand.map String.trim

/-- `_get_cpu_vendor_windows` (platform_info.py lines 79-81). -/
def get_cpu_vendor_windows (env : Env) : Option String :=
  env.processorIdentifier

/-- `get_cpu_vendor` (platform_info.py lines 28-47): dispatch on the
lowercased system name. -/
def get_cpu_vendor (env : Env) : Option String :=
  let system := env.system.toLower
  if system = "linux" then get_cpu_vendor_linux env
  else if system = "darwin" then get_cpu_vendor_macos env
  else if system = "windows" then get_cpu_vendor_windows env
  else none

/-- `_get_gpu_vendor_nvidia` (platform_info.py lines 106-121): first
stdout line, trimmed, when the tool ran and exited 0. -/
def get_gpu_vendor_nvidia (env : Env) : Option String :=
  match env.nvidiaSmi with
  | none => none
  | some (rc, out) =>
    if rc ≠ 0 then none
    else
      let first := ((out.splitOn "\n").headD "").trim
      if first = "" then none else some first

/-- `re.search(r"Card Series:\s*(.+)", line)` with `.group(1).strip()`. -/
def afterCardSeriesTrimmed (line : String) : Option String :=
  match line.splitOn "Card Series:" with
  | [] => none
  | [_] => none
  | _ :: rest =>
    let t := (String.intercalate "Card Series:" rest).trim
    if t = "" then none else some t

/-- `_get_gpu_vendor_rocm` (platform_info.py lines 123-141). -/
def get_gpu_vendor_rocm (env : Env) : Option String :=
  match env.rocmSmi with
  | none => none
  | some (rc, out) =>
    if rc ≠ 0 then none
    else
      (out.splitOn "\n").findSome? (fun line =>
        if 2 ≤ (line.splitOn "Card Series").length then afterCardSeriesTrimmed line
        else none)

/-- `_get_gpu_vendor_macos` (platform_info.py lines 144-162). -/
def get_gpu_vendor_macos (env : Env) : Option String :=
  match env.systemProfiler with
  | none => none
  | some (rc, out) =>
    if rc ≠ 0 then none
    else
      (out.splitOn "\n").findSome? (fun line =>
        if 2 ≤ (line.splitOn "Chipset Model:").length then afterColonTrimmed line
        else none)

/-- `get_gpu_vendor` (platform_info.py lines 84-103): dispatch on the
capitalised system name; on Linux, NVIDIA first, then ROCm. -/
def get_gpu_vendor (env : Env) : Option String :=
  if env.system = "Darwin" then get_gpu_vendor_macos env
  else if env.system = "Linux" then
    match get_gpu_vendor_nvidia env with
    | some r => some r
    | none => get_gpu_vendor_rocm env
  else none

/-- The keyword arguments passed at the `Platform(...)` construction site
inside `get_platform_info` (platform_info.py lines 174-180). -/
def get_platform_info_call_keywords : List String :=
  ["os", "arch", "cpu_count", "cpu_vendor", "gpu_vendor"]

/-- `get_platform_info` (platform_info.py lines 165-181).  Python first
evaluates every keyword argument, then performs the dataclass
constructor call; a keyword the dataclass does not declare raises
`TypeError` at that call.  The guard models that dynamic check against
`Platform.init_keywords`, the fields `Platform` actually declares. -/
def get_platform_info (env : Env) : Except String Platform :=
  if get_platform_info_call_keywords.all
      (fun k => Platform.init_keywords.contains k) then
    Except.ok
      { os := env.system.toLower
        arch := env.machine
        cpu_count := (env.cpuCount.getD 1 : Nat)
        cpu_vendor := get_cpu_vendor env }
  else
    Except.error "TypeError: Platform got an unexpected keyword argument"

/-! ## JSON serialization — models of `json.dumps(..., indent=...)` and
`json.loads`.  Both are Python standard library; `dumps` is modelled from
CPython's `json.encoder` (default `ensure_ascii=True`, separators for an
`indent` given), `loads` from `json.scanner`/`py_scanstring` in strict
mode with objects kept as ordered pairs.  The reader covers the grammar
fragment the serializer emits (no exponent literals, no lone-surrogate
escapes). -/

/-! ### Number printing -/

def digitChar (d : Nat) : Char := Char.ofNat (48 + d)

def natDigitsBE (n : Nat) : List Char :=
  if h : n < 10 then [digitChar n]
  else natDigitsBE (n / 10) ++ [digitChar (n % 10)]
termination_by n
decreasing_by
  exact Nat.div_lt_self (by omega) (by omega)

def padZeros (k : Nat) (l : List Char) : List Char :=
  List.replicate (k - l.length) '0' ++ l

/-- The digits of `n`, left-padded so at least `e+1` digits exist, with a
decimal point before the last `e` digits when `e > 0`. -/
def printDecAbs (n e : Nat) : List Char :=
  let ds := padZeros (e + 1) (natDigitsBE n)
  if e = 0 then ds
  else ds.take (ds.length - e) ++ '.' :: ds.drop (ds.length - e)

/-- `repr` of a `Dec`: its absolute part with a leading minus sign for
negative `m`. -/
def printDec (d : Dec) : List Char :=
  if d.m < 0 then '-' :: printDecAbs d.m.natAbs d.e
  else printDecAbs d.m.natAbs d.e

/-! ### String printing (`py_encode_basestring_ascii`) -/

def hex4 (n : Nat) : List Char :=
  [hexDigitChar (n / 4096 % 16), hexDigitChar (n / 256 % 16),
   hexDigitChar (n / 16 % 16), hexDigitChar (n % 16)]

def encodeChar (c : Char) : List Char :=
  if c = '"' then ['\\', '"']
  else if c = '\\' then ['\\', '\\']
  else if c = '\x08' then ['\\', 'b']
  else if c = '\x0c' then ['\\', 'f']
  else if c = '\n' then ['\\', 'n']
  else if c = '\x0d' then ['\\', 'r']
  else if c = '\t' then ['\\', 't']
  else if c.toNat < 32 ∨ 126 < c.toNat then
    if c.toNat < 65536 then '\\' :: 'u' :: hex4 c.toNat
    else
      ('\\' :: 'u' :: hex4 (55296 + (c.toNat - 65536) / 1024)) ++
        ('\\' :: 'u' :: hex4 (56320 + (c.toNat - 65536) % 1024))
  else [c]

def printString (s : String) : List Char :=
  '"' :: (s.data.map encodeChar).flatten ++ ['"']

/-! ### Value printing (`json.dumps` with an `indent`) -/

def nlInd (ind lvl : Nat) : List Char :=
  '\n' :: List.replicate (ind * lvl) ' '

mutual

def printValue (ind lvl : Nat) : Json → List Char
  | Json.null => ['n', 'u', 'l', 'l']
  | Json.bool true => ['t', 'r', 'u', 'e']
  | Json.bool false => ['f', 'a', 'l', 's', 'e']
  | Json.num d => printDec d
  | Json.str s => printString s
  | Json.arr [] => ['[', ']']
  | Json.arr (x :: xs) =>
    '[' :: (nlInd ind (lvl + 1) ++ printValue ind (lvl + 1) x ++
      printElemsTail ind (lvl + 1) xs ++ nlInd ind lvl ++ [']'])
  | Json.obj [] => ['{', '}']
  | Json.obj (kv :: kvs) =>
    '{' :: (nlInd ind (lvl + 1) ++ printString kv.1 ++ ':' :: ' ' ::
      printValue ind (lvl + 1) kv.2 ++
      printMembersTail ind (lvl + 1) kvs ++ nlInd ind lvl ++ ['}'])

def printElemsTail (ind lvl : Nat) : List Json → List Char
  | [] => []
  | x :: xs =>
    ',' :: nlInd ind lvl ++ printValue ind lvl x ++ printElemsTail ind lvl xs

def printMembersTail (ind lvl : Nat) : List (String × Json) → List Char
  | [] => []
  | kv :: kvs =>
    ',' :: nlInd ind lvl ++ printString kv.1 ++ ':' :: ' ' ::
      printValue ind lvl kv.2 ++ printMembersTail ind lvl kvs

end

def jsonDumps (j : Json) (indent : Int) : String :=
  String.mk (printValue indent.toNat 0 j)

/-! ### Parsing (`json.loads`) -/

def isWsChar (c : Char) : Bool :=
  c = ' ' || c = '\t' || c = '\n' || c = '\x0d'

def skipWs (s : List Char) : List Char := s.dropWhile isWsChar

def digitVal (c : Char) : Nat := c.toNat - 48

def natOfDigits (cs : List Char) : Nat :=
  cs.foldl (fun a c => 10 * a + digitVal c) 0

def parseNumAbs (s : List Char) : Option (Dec × List Char) :=
  let ip := s.takeWhile Char.isDigit
  let r1 := s.dropWhile Char.isDigit
  if ip.isEmpty then none
  else
    match r1 with
    | [] => some (⟨natOfDigits ip, 0⟩, [])
    | c :: r2 =>
      if c = '.' then
        let fp := r2.takeWhile Char.isDigit
        let r3 := r2.dropWhile Char.isDigit
        if fp.isEmpty then none
        else some (⟨natOfDigits (ip ++ fp), fp.length⟩, r3)
      else some (⟨natOfDigits ip, 0⟩, c :: r2)

def parseNum (s : List Char) : Option (Dec × List Char) :=
  match s with
  | [] => none
  | c :: r =>
    if c = '-' then
      match parseNumAbs r with
      | some (d, rest) => some (⟨-d.m, d.e⟩, rest)
      | none => none
    else parseNumAbs (c :: r)

def hexVal (c : Char) : Option Nat :=
  if 48 ≤ c.toNat ∧ c.toNat ≤ 57 then some (c.toNat - 48)
  else if 97 ≤ c.toNat ∧ c.toNat ≤ 102 then some (c.toNat - 87)
  else if 65 ≤ c.toNat ∧ c.toNat ≤ 70 then some (c.toNat - 55)
  else none

def hexVal4 (a b c d : Char) : Option Nat :=
  match hexVal a, hexVal b, hexVal c, hexVal d with
  | some va, some vb, some vc, some vd =>
    some (((va * 16 + vb) * 16 + vc) * 16 + vd)
  | _, _, _, _ => none

def simpleUnescape (e : Char) : Option Char :=
  if e = '"' then some '"'
  else if e = '\\' then some '\\'
  else if e = '/' then some '/'
  else if e = 'b' then some '\x08'
  else if e = 'f' then some '\x0c'
  else if e = 'n' then some '\n'
  else if e = 'r' then some '\x0d'
  else if e = 't' then some '\t'
  else none

/-- Decode the second half of a surrogate pair: expects `\\uXXXX` with a
low surrogate, given the high surrogate value `h`. -/
def decodeLowSurrogate (h : Nat) : List Char → Option (Char × List Char)
  | [] => none
  | [_] => none
  | [_, _] => none
  | [_, _, _] => none
  | [_, _, _, _] => none
  | [_, _, _, _, _] => none
  | s1 :: s2 :: a2 :: b2 :: c3 :: d2 :: r3 =>
    if s1 = '\\' ∧ s2 = 'u' then
      match hexVal4 a2 b2 c3 d2 with
      | none => none
      | some lo =>
        if 56320 ≤ lo ∧ lo < 57344 then
          some (Char.ofNat (65536 + (h - 55296) * 1024 + (lo - 56320)), r3)
        else none
    else none

/-- Decode a `\\uXXXX` escape given its four hex digits and the rest. -/
def decodeUnicodeEscape (a b c2 d : Char) (r2 : List Char) :
    Option (Char × List Char) :=
  match hexVal4 a b c2 d with
  | none => none
  | some h =>
    if 55296 ≤ h ∧ h < 56320 then decodeLowSurrogate h r2
    else if 56320 ≤ h ∧ h < 57344 then none
    else some (Char.ofNat h, r2)

def decodeEscape : List Char → Option (Char × List Char)
  | [] => none
  | e :: r1 =>
    if e = 'u' then
      match r1 with
      | [] => none
      | [_] => none
      | [_, _] => none
      | [_, _, _] => none
      | a :: b :: c2 :: d :: r2 => decodeUnicodeEscape a b c2 d r2
    else
      match simpleUnescape e with
      | none => none
      | some ch => some (ch, r1)

/-- A list a printed number may be followed by: empty, or headed by a
character that is neither a digit nor a decimal point. -/
def NumDelim (t : List Char) : Prop :=
  ∀ c, t.head? = some c → (c.isDigit = false ∧ c ≠ '.')

def decodeLowSurrogate_length {h : Nat} {r : List Char} {ch : Char}
    {r1 : List Char} (hde : decodeLowSurrogate h r = some (ch, r1)) :
    r1.length + 6 ≤ r.length := by
  match r with
  | [] => exact absurd hde (by rw [decodeLowSurrogate]; intro hh; cases hh)
  | [s1] => exact absurd hde (by rw [decodeLowSurrogate]; intro hh; cases hh)
  | [s1, s2] => exact absurd hde (by rw [decodeLowSurrogate]; intro hh; cases hh)
  | [s1, s2, a2] =>
    exact absurd hde (by rw [decodeLowSurrogate]; intro hh; cases hh)
  | [s1, s2, a2, b2] =>
    exact absurd hde (by rw [decodeLowSurrogate]; intro hh; cases hh)
  | [s1, s2, a2, b2, c3] =>
    exact absurd hde (by rw [decodeLowSurrogate]; intro hh; cases hh)
  | s1 :: s2 :: a2 :: b2 :: c3 :: d2 :: r3 =>
    rw [decodeLowSurrogate] at hde
    split at hde
    · split at hde
      · cases hde
      · split at hde
        · have hr : r3 = r1 := congrArg Prod.snd (Option.some.inj hde)
          subst hr
          simp only [List.length_cons]
          omega
        · cases hde
    · cases hde

def decodeUnicodeEscape_length {a b c2 d : Char} {r2 : List Char}
    {ch : Char} {r1 : List Char}
    (hde : decodeUnicodeEscape a b c2 d r2 = some (ch, r1)) :
    r1.length ≤ r2.length := by
  rw [decodeUnicodeEscape] at hde
  split at hde
  · cases hde
  · split at hde
    · have := decodeLowSurrogate_length hde
      omega
    · split at hde
      · cases hde
      · have hr : r2 = r1 := congrArg Prod.snd (Option.some.inj hde)
        subst hr
        omega

def decodeEscape_length {r : List Char} {ch : Char} {r1 : List Char}
    (h : decodeEscape r = some (ch, r1)) : r1.length < r.length := by
  match r with
  | [] => exact absurd h (by rw [decodeEscape]; intro hh; cases hh)
  | e :: t =>
    simp only [decodeEscape.eq_def] at h
    by_cases hu : e = 'u'
    · rw [if_pos hu] at h
      match t with
      | [] => cases h
      | [a] => cases h
      | [a, b] => cases h
      | [a, b, c2] => cases h
      | a :: b :: c2 :: d :: r2 =>
        have hd : decodeUnicodeEscape a b c2 d r2 = some (ch, r1) := h
        have := decodeUnicodeEscape_length hd
        simp only [List.length_cons]
        omega
    · rw [if_neg hu] at h
      cases hsu : simpleUnescape e with
      | none => rw [hsu] at h; cases h
      | some ch2 =>
        rw [hsu] at h
        have hr : t = r1 := congrArg Prod.snd (Option.some.inj h)
        subst hr
        simp only [List.length_cons]
        omega

/-- `py_scanstring` after the opening quote, in strict mode. -/
def parseStringBody (s : List Char) : Option (List Char × List Char) :=
  match s with
  | [] => none
  | c :: r =>
    if c = '"' then some ([], r)
    else if c = '\\' then
      match hde : decodeEscape r with
      | none => none
      | some (ch, r1) =>
        match parseStringBody r1 with
        | some (cs, rest) => some (ch :: cs, rest)
        | none => none
    else if c.toNat < 32 then none
    else
      match parseStringBody r with
      | some (cs, rest) => some (c :: cs, rest)
      | none => none
termination_by s.length
decreasing_by
  · have := decodeEscape_length hde
    simp only [List.length_cons]
    omega
  · simp only [List.length_cons]
    omega

mutual

def parseValue : Nat → List Char → Option (Json × List Char)
  | 0, _ => none
  | fuel + 1, s =>
    match skipWs s with
    | [] => none
    | c :: r =>
      if c = '"' then
        match parseStringBody r with
        | some (cs, rest) => some (Json.str (String.mk cs), rest)
        | none => none
      else if c = '[' then
        match skipWs r with
        | [] => none
        | c2 :: r2 =>
          if c2 = ']' then some (Json.arr [], r2)
          else
            match parseElems fuel (c2 :: r2) with
            | some (xs, rest) => some (Json.arr xs, rest)
            | none => none
      else if c = '{' then
        match skipWs r with
        | [] => none
        | c2 :: r2 =>
          if c2 = '}' then some (Json.obj [], r2)
          else
            match parseMembers fuel (c2 :: r2) with
            | some (kvs, rest) => some (Json.obj kvs, rest)
            | none => none
      else if c = 'n' then
        if r.take 3 = ['u', 'l', 'l'] then some (Json.null, r.drop 3) else none
      else if c = 't' then
        if r.take 3 = ['r', 'u', 'e'] then some (Json.bool true, r.drop 3)
        else none
      else if c = 'f' then
        if r.take 4 = ['a', 'l', 's', 'e'] then some (Json.bool false, r.drop 4)
        else none
      else
        match parseNum (c :: r) with
        | some (d, rest) => some (Json.num d, rest)
        | none => none

def parseElems : Nat → List Char → Option (List Json × List Char)
  | 0, _ => none
  | fuel + 1, s =>
    match parseValue fuel s with
    | none => none
    | some (j, r) =>
      match skipWs r with
      | [] => none
      | c :: r2 =>
        if c = ',' then
          match parseElems fuel r2 with
          | some (js, rest) => some (j :: js, rest)
          | none => none
        else if c = ']' then some ([j], r2)
        else none

def parseMembers : Nat → List Char → Option (List (String × Json) × List Char)
  | 0, _ => none
  | fuel + 1, s =>
    match skipWs s with
    | [] => none
    | c :: r =>
      if c = '"' then
        match parseStringBody r with
        | none => none
        | some (k, r1) =>
          match skipWs r1 with
          | [] => none
          | c2 :: r2 =>
            if c2 = ':' then
              match parseValue fuel r2 with
              | none => none
              | some (v, r3) =>
                match skipWs r3 with
                | [] => none
                | c3 :: r4 =>
                  if c3 = ',' then
                    match parseMembers fuel r4 with
                    | some (kvs, rest) => some ((String.mk k, v) :: kvs, rest)
                    | none => none
                  else if c3 = '}' then some ([(String.mk k, v)], r4)
                  else none
            else none
      else none

end

def jsonLoads (s : String) : Option Json :=
  match parseValue (s.length + 1) s.data with
  | some (j, rest) => if skipWs rest = [] then some j else none
  | none => none

/-! ### Sizes for the parser fuel -/

mutual

def sizeJ : Json → Nat
  | Json.null => 1
  | Json.bool _ => 1
  | Json.num _ => 1
  | Json.str _ => 1
  | Json.arr xs => 1 + sizeL xs
  | Json.obj kvs => 1 + sizeM kvs

def sizeL : List Json → Nat
  | [] => 0
  | x :: xs => 1 + sizeJ x + sizeL xs

def sizeM : List (String × Json) → Nat
  | [] => 0
  | kv :: kvs => 1 + sizeJ kv.2 + sizeM kvs

end

/-- `BenchmarkReport.to_json` (schema.py lines 163-164):
`json.dumps(self.to_dict(), indent=indent)`. -/
def BenchmarkReport.to_json (r : BenchmarkReport) (indent : Int) : String :=
  jsonDumps (Json.obj r.to_dict) indent

theorem list_sum_eq_fin_sum (l : List ℚ) : l.sum = ∑ i : Fin l.length, l.get i := by
  conv_lhs => rw [← List.ofFn_get l]
  rw [List.sum_ofFn]

theorem list_map_sum_eq_fin_sum (f : ℚ → ℚ) (l : List ℚ) :
    (l.map f).sum = ∑ i : Fin l.length, f (l.get i) := by
  conv_lhs => rw [← List.ofFn_get l, List.map_ofFn]
  rw [List.sum_ofFn]
  rfl

theorem list_sum_nonneg_all_zero (l : List ℚ) (hpos : ∀ x ∈ l, 0 ≤ x)
    (hsum : l.sum = 0) : ∀ x ∈ l, x = 0 := by
  induction l with
  | nil => intro x hx; cases hx
  | cons a t ih =>
    rw [List.sum_cons] at hsum
    have ha : 0 ≤ a := hpos a (List.mem_cons_self _ _)
    have ht : 0 ≤ t.sum := List.sum_nonneg fun x hx => hpos x (List.mem_cons_of_mem _ hx)
    have ha0 : a = 0 := le_antisymm (by linarith) ha
    have hts : t.sum = 0 := by linarith
    intro x hx
    rcases List.mem_cons.mp hx with rfl | hx
    · exact ha0
    · exact ih (fun y hy => hpos y (List.mem_cons_of_mem _ hy)) hts x hx

theorem calculate_statistics_of_lt_two (values : List ℚ) (h : values ≠ [])
    (h2 : values.length < 2) :
    calculate_statistics values = some (values.sum / (values.length : ℚ), 0) := by
  have hne : values.isEmpty = false := by simpa [List.isEmpty_iff] using h
  simp only [calculate_statistics]
  rw [if_neg (by simp [hne]), if_pos h2]

theorem calculate_statistics_of_two_le (values : List ℚ) (h2 : 2 ≤ values.length) :
    calculate_statistics values = some (values.sum / (values.length : ℚ),
      Real.sqrt (((values.map (fun x => (x - values.sum / (values.length : ℚ)) ^ 2)).sum /
        ((values.length : ℚ) - 1) : ℚ) : ℝ)) := by
  have hne : values.isEmpty = false := by
    cases values with
    | nil => simp at h2
    | cons a t => rfl
  have h2' : ¬ values.length < 2 := by omega
  simp only [calculate_statistics]
  rw [if_neg (by simp [hne]), if_neg h2']

/-- C1. For every non-empty sequence, `calculate_statistics` returns
`(mean, stdev)` with `mean` the arithmetic mean; `stdev = 0.0` when there
is exactly one element, and the Bessel-corrected sample standard deviation
`sqrt(Σ(xᵢ − mean)² / (n − 1))` when there are at least two. -/
theorem calculate_statistics_correct (values : List ℚ) (h : values ≠ []) :
    ∃ mean stdev, calculate_statistics values = some (mean, stdev) ∧
      mean = specArithmeticMean values ∧
      (values.length = 1 → stdev = 0) ∧
      (2 ≤ values.length → stdev = specBesselStdev values mean) := by
  have hmean : values.sum / (values.length : ℚ) = specArithmeticMean values := by
    rw [specArithmeticMean, list_sum_eq_fin_sum]
  by_cases h2 : values.length < 2
  · refine ⟨values.sum / (values.length : ℚ), 0,
      calculate_statistics_of_lt_two values h h2, hmean, fun _ => rfl, ?_⟩
    intro hlen; omega
  · have h2' : 2 ≤ values.length := by omega
    refine ⟨values.sum / (values.length : ℚ),
      Real.sqrt (((values.map
        (fun x => (x - values.sum / (values.length : ℚ)) ^ 2)).sum /
        ((values.length : ℚ) - 1) : ℚ) : ℝ),
      calculate_statistics_of_two_le values h2', hmean, ?_, ?_⟩
    · intro hlen; omega
    · intro _
      rw [specBesselStdev]
      congr 1
      rw [list_map_sum_eq_fin_sum]
      push_cast
      rfl

/-- Witness for C1 at the concrete input `[1, 2, 3]`. -/
theorem calculate_statistics_correct_witness :
    (([1, 2, 3] : List ℚ) ≠ []) ∧
      (∃ mean stdev, calculate_statistics [1, 2, 3] = some (mean, stdev) ∧
        mean = specArithmeticMean [1, 2, 3] ∧
        (([1, 2, 3] : List ℚ).length = 1 → stdev = 0) ∧
        (2 ≤ ([1, 2, 3] : List ℚ).length →
          stdev = specBesselStdev [1, 2, 3] mean)) :=
  ⟨by decide, calculate_statistics_correct [1, 2, 3] (by decide)⟩

/-- C2. For `n ≥ 1`, `calculate_confidence_interval` returns
`(mean − z·se, mean + z·se)` with `se = stdev / sqrt n`, where `z = 1.96`
at confidence `0.95`, `z = 2.576` at `0.99`, and `z = 1.96` for every
other confidence value. -/
theorem calculate_confidence_interval_correct (mean stdev : ℝ) (n : ℤ)
    (confidence : ℚ) (h : 1 ≤ n) :
    ∃ z : ℝ, ((confidence = 0.95 ∧ z = 1.96) ∨ (confidence = 0.99 ∧ z = 2.576) ∨
        (confidence ≠ 0.95 ∧ confidence ≠ 0.99 ∧ z = 1.96)) ∧
      calculate_confidence_interval mean stdev n confidence =
        some (mean - z * (stdev / Real.sqrt (n : ℝ)),
              mean + z * (stdev / Real.sqrt (n : ℝ))) := by
  have hn : ¬ n ≤ 0 := by omega
  by_cases h95 : confidence = 0.95
  · refine ⟨1.96, Or.inl ⟨h95, rfl⟩, ?_⟩
    simp only [calculate_confidence_interval]
    rw [if_neg hn, if_pos h95]
  · by_cases h99 : confidence = 0.99
    · refine ⟨2.576, Or.inr (Or.inl ⟨h99, rfl⟩), ?_⟩
      simp only [calculate_confidence_interval]
      rw [if_neg hn, if_neg h95, if_pos h99]
    · refine ⟨1.96, Or.inr (Or.inr ⟨h95, h99, rfl⟩), ?_⟩
      simp only [calculate_confidence_interval]
      rw [if_neg hn, if_neg h95, if_neg h99]

/-- Witness for C2 at `mean = 0`, `stdev = 1`, `n = 1`, confidence `0.95`. -/
theorem calculate_confidence_interval_correct_witness :
    (1 ≤ (1 : ℤ)) ∧
      (∃ z : ℝ, (((0.95 : ℚ) = 0.95 ∧ z = 1.96) ∨ ((0.95 : ℚ) = 0.99 ∧ z = 2.576) ∨
          ((0.95 : ℚ) ≠ 0.95 ∧ (0.95 : ℚ) ≠ 0.99 ∧ z = 1.96)) ∧
        calculate_confidence_interval 0 1 1 0.95 =
          some (0 - z * (1 / Real.sqrt ((1 : ℤ) : ℝ)),
                0 + z * (1 / Real.sqrt ((1 : ℤ) : ℝ)))) :=
  ⟨by decide, calculate_confidence_interval_correct 0 1 1 0.95 (by decide)⟩

/-- C8. `calculate_statistics` fails exactly on the empty sequence and
`calculate_confidence_interval` fails exactly when `n ≤ 0`; under the
complementary preconditions neither fails. -/
theorem validation_error_iff :
    (∀ values : List ℚ, calculate_statistics values = none ↔ values = []) ∧
    (∀ (mean stdev : ℝ) (n : ℤ) (confidence : ℚ),
      calculate_confidence_interval mean stdev n confidence = none ↔ n ≤ 0) := by
  constructor
  · intro values
    constructor
    · intro hnone
      by_contra hne
      have hfalse : values.isEmpty = false := by simpa [List.isEmpty_iff] using hne
      by_cases h2 : values.length < 2 <;>
        simp [calculate_statistics, hfalse, h2] at hnone
    · intro h; subst h; rfl
  · intro mean stdev n confidence
    constructor
    · intro hnone
      by_contra hn
      simp [calculate_confidence_interval, hn] at hnone
    · intro h; simp [calculate_confidence_interval, h]

/-- C10. For every non-empty sequence, the returned stdev is `0.0` iff
all elements are equal or there is exactly one element. -/
theorem stdev_zero_iff (values : List ℚ) (h : values ≠ []) (mean : ℚ) (stdev : ℝ)
    (he : calculate_statistics values = some (mean, stdev)) :
    stdev = 0 ↔ ((∀ x ∈ values, ∀ y ∈ values, x = y) ∨ values.length = 1) := by
  have hlen : 1 ≤ values.length := by
    cases values with
    | nil => exact absurd rfl h
    | cons a t => simp
  by_cases h2 : values.length < 2
  · have hlen1 : values.length = 1 := by omega
    rw [calculate_statistics_of_lt_two values h h2] at he
    simp only [Option.some.injEq, Prod.mk.injEq] at he
    rw [← he.2]
    simp [hlen1]
  · -- n ≥ 2 : stdev = sqrt variance
    have hn2 : 2 ≤ values.length := by omega
    rw [calculate_statistics_of_two_le values hn2] at he
    simp only [Option.some.injEq, Prod.mk.injEq] at he
    have hmean : mean = values.sum / (values.length : ℚ) := he.1.symm
    have hstdev : stdev = Real.sqrt
        (((values.map (fun x => (x - mean) ^ 2)).sum / ((values.length : ℚ) - 1) : ℚ) : ℝ) := by
      rw [← he.2, hmean]
    have hd : (0 : ℚ) < (values.length : ℚ) - 1 := by
      have : (2 : ℚ) ≤ (values.length : ℚ) := by exact_mod_cast hn2
      linarith
    have hsq_nonneg : ∀ x ∈ values.map (fun x => (x - mean) ^ 2), (0 : ℚ) ≤ x := by
      intro x hx
      rcases List.mem_map.mp hx with ⟨y, _, rfl⟩
      positivity
    have hsum_nonneg : (0 : ℚ) ≤ (values.map (fun x => (x - mean) ^ 2)).sum :=
      List.sum_nonneg hsq_nonneg
    constructor
    · intro h0
      left
      rw [hstdev] at h0
      have hvar : ((values.map (fun x => (x - mean) ^ 2)).sum / ((values.length : ℚ) - 1) : ℚ) = 0 := by
        have hle := Real.sqrt_eq_zero'.mp h0
        have hvr : (0 : ℚ) ≤ (values.map (fun x => (x - mean) ^ 2)).sum / ((values.length : ℚ) - 1) :=
          div_nonneg hsum_nonneg (le_of_lt hd)
        have : ((values.map (fun x => (x - mean) ^ 2)).sum / ((values.length : ℚ) - 1) : ℚ) ≤ 0 := by
          exact_mod_cast hle
        linarith
      have hsum0 : (values.map (fun x => (x - mean) ^ 2)).sum = 0 := by
        rcases div_eq_zero_iff.mp hvar with hv | hv
        · exact hv
        · exact absurd hv (by intro hh; rw [hh] at hd; exact lt_irrefl 0 hd)
      have hall := list_sum_nonneg_all_zero _ hsq_nonneg hsum0
      have heach : ∀ x ∈ values, x = mean := by
        intro x hx
        have := hall ((x - mean) ^ 2) (List.mem_map.mpr ⟨x, hx, rfl⟩)
        have hxm : x - mean = 0 := by
          nlinarith [sq_nonneg (x - mean)]
        linarith
      intro x hx y hy
      rw [heach x hx, heach y hy]
    · intro hcase
      rcases hcase with hall | h1
      · -- all equal ⇒ every element equals the mean ⇒ variance 0
        obtain ⟨a, t, rfl⟩ : ∃ a t, values = a :: t := by
          cases values with
          | nil => exact absurd rfl h
          | cons a t => exact ⟨a, t, rfl⟩
        have halla : ∀ x ∈ a :: t, x = a := fun x hx => hall x hx a (List.mem_cons_self _ _)
        have hsuma : (a :: t).sum = ((a :: t).length : ℚ) * a := by
          have := List.sum_eq_card_nsmul (a :: t) a halla
          simpa [nsmul_eq_mul] using this
        have hlz : ((a :: t).length : ℚ) ≠ 0 := by
          simp only [List.length_cons]
          push_cast
          positivity
        have hmeana : mean = a := by
          rw [hmean, hsuma]
          field_simp
        have hzero : ∀ x ∈ (a :: t).map (fun x => (x - mean) ^ 2), x = 0 := by
          intro x hx
          rcases List.mem_map.mp hx with ⟨y, hy, rfl⟩
          rw [halla y hy, hmeana]
          ring
        have hsum0 : ((a :: t).map (fun x => (x - mean) ^ 2)).sum = 0 := by
          rw [List.sum_eq_zero hzero]
        rw [hstdev, hsum0]
        simp
      · omega

/-- C3. (divergence evidence).  The claim says `get_platform_info`
never raises; in the source it always raises: the `Platform(...)` call
passes the keyword `gpu_vendor`, which the `Platform` dataclass does not
declare, so every call ends in a `TypeError` before a `Platform` value
can be produced — in every environment, whatever the detection
mechanisms report. -/
theorem get_platform_info_always_raises (env : Env) :
    get_platform_info env =
      Except.error "TypeError: Platform got an unexpected keyword argument" := rfl

/-- C4. (divergence evidence).  The claim says `Platform` has an
optional `gpu_vendor` field emitted by `to_dict` exactly when present; in
the source `Platform` declares no such field and no `Platform.to_dict`
result ever contains the key `"gpu_vendor"`. -/
theorem platform_to_dict_never_has_gpu_vendor (p : Platform) :
    ¬ "gpu_vendor" ∈ (Platform.to_dict p).map Prod.fst := by
  cases hv : p.cpu_vendor <;> simp [Platform.to_dict, hv]

/-- C5. (counterexample).  Not every constructible `MetricValue` with
both bounds present satisfies `lower_value ≤ value ≤ upper_value`: the
dataclass constructor performs no validation, so
`MetricValue(value=5, unit="ms", lower_value=10, upper_value=1)` is
constructible and violates the invariant. -/
theorem metricvalue_invariant_counterexample :
    ¬ ∀ mv : MetricValue, mv.lower_value.isSome → mv.upper_value.isSome →
      ∀ l ∈ mv.lower_value, ∀ u ∈ mv.upper_value,
        l.toRat ≤ mv.value.toRat ∧ mv.value.toRat ≤ u.toRat := by
  intro hall
  have h := hall ⟨⟨5, 0⟩, "ms", some ⟨10, 0⟩, some ⟨1, 0⟩⟩ rfl rfl
    ⟨10, 0⟩ rfl ⟨1, 0⟩ rfl
  rw [Dec.toRat, Dec.toRat, Dec.toRat] at h
  norm_num at h

/-- C5. (amended).  The public constructor is the raw dataclass
constructor and enforces nothing: a `MetricValue` built with both bounds
present satisfies the documented invariant exactly when the numbers
supplied to the constructor already satisfy it. -/
theorem metricvalue_invariant_iff (v : Dec) (u : String) (lv uv : Dec) :
    (∀ l ∈ (MetricValue.mk v u (some lv) (some uv)).lower_value,
     ∀ ub ∈ (MetricValue.mk v u (some lv) (some uv)).upper_value,
        l.toRat ≤ (MetricValue.mk v u (some lv) (some uv)).value.toRat ∧
        (MetricValue.mk v u (some lv) (some uv)).value.toRat ≤ ub.toRat)
      ↔ (lv.toRat ≤ v.toRat ∧ v.toRat ≤ uv.toRat) := by
  simp

/-- C7. A `BenchmarkResult` with only `latency` set (no memory,
throughput or test vectors, zero iterations, empty metadata) serializes
to a mapping whose key list is exactly `["latency"]`: absent optionals
are omitted entirely, never emitted as null. -/
theorem benchmarkresult_latency_only_keys (mv : MetricValue) :
    (BenchmarkResult.to_dict ⟨some mv, none, none, 0, none, []⟩).map Prod.fst
      = ["latency"] := by
  simp [BenchmarkResult.to_dict]

/-- C9. `compute_array_hash [1, 2, 3]` is the documented hex digest
and equals `compute_hash` of the 12-byte little-endian uint32 packing of
the sequence 1, 2, 3. -/
theorem compute_array_hash_one_two_three :
    compute_array_hash [1, 2, 3] =
      "4636993d3e1da4e9d6b8f87b79e8f7c6d018580d52661950eabc3845c5897a4d" ∧
    compute_array_hash [1, 2, 3] =
      compute_hash [1, 0, 0, 0, 2, 0, 0, 0, 3, 0, 0, 0] :=
  ⟨rfl, rfl⟩

/-- Witness for C10 at the concrete input `[3, 3]`. -/
theorem stdev_zero_iff_witness :
    (([3, 3] : List ℚ) ≠ []) ∧
      ((0 : ℝ) = 0 ↔ ((∀ x ∈ ([3, 3] : List ℚ), ∀ y ∈ ([3, 3] : List ℚ), x = y) ∨
        ([3, 3] : List ℚ).length = 1)) :=
  ⟨by decide, stdev_zero_iff [3, 3] (by decide) 3 0 (by
    rw [calculate_statistics_of_two_le [3, 3] (by norm_num)]
    norm_num)⟩

/-! ### Character facts -/

theorem char_ofNat_toNat_valid (n : Nat) (h : n.isValidChar) :
    (Char.ofNat n).toNat = n := by
  simp [Char.ofNat, Char.ofNatAux, Char.toNat, dif_pos h, UInt32.toNat,
    BitVec.toNat_ofNatLt]

theorem char_isDigit_iff (c : Char) :
    (c.isDigit = true) ↔ (48 ≤ c.toNat ∧ c.toNat ≤ 57) := by
  simp [Char.isDigit, Char.le_def, Char.toNat, UInt32.le_def, BitVec.le_def,
    UInt32.toNat]

theorem char_eq_iff_toNat (c d : Char) : c = d ↔ c.toNat = d.toNat := by
  constructor
  · intro h; rw [h]
  · intro h
    apply Char.eq_of_val_eq
    have : c.val.toBitVec = d.val.toBitVec := BitVec.eq_of_toNat_eq h
    exact congrArg UInt32.mk this

theorem char_valid_nat (c : Char) : c.toNat.isValidChar := by
  have := c.valid
  rcases this with h | ⟨h1, h2⟩
  · exact Or.inl (by simpa [Char.toNat, UInt32.lt_def, BitVec.lt_def] using h)
  · exact Or.inr ⟨by simpa [Char.toNat, UInt32.lt_def, BitVec.lt_def] using h1,
      by simpa [Char.toNat, UInt32.lt_def, BitVec.lt_def] using h2⟩

theorem char_ofNat_toNat (c : Char) : Char.ofNat c.toNat = c :=
  Char.ofNat_toNat c

/-! ### Digit-string lemmas -/

theorem digitChar_toNat (d : Nat) (h : d < 10) : (digitChar d).toNat = 48 + d := by
  rw [digitChar, char_ofNat_toNat_valid]
  exact Or.inl (by omega)

theorem digitChar_isDigit (d : Nat) (h : d < 10) : (digitChar d).isDigit = true := by
  rw [char_isDigit_iff, digitChar_toNat d h]
  omega

theorem digitVal_digitChar (d : Nat) (h : d < 10) : digitVal (digitChar d) = d := by
  rw [digitVal, digitChar_toNat d h]
  omega

theorem natDigitsBE_ne_nil (n : Nat) : natDigitsBE n ≠ [] := by
  rw [natDigitsBE]
  split
  · simp
  · simp

theorem natDigitsBE_all_digit (n : Nat) :
    ∀ c ∈ natDigitsBE n, c.isDigit = true := by
  induction n using Nat.strong_induction_on with
  | _ n ih =>
    rw [natDigitsBE]
    split
    · intro c hc
      rw [List.mem_singleton] at hc
      subst hc
      exact digitChar_isDigit n (by omega)
    · intro c hc
      rcases List.mem_append.mp hc with h | h
      · exact ih (n / 10) (Nat.div_lt_self (by omega) (by omega)) c h
      · rw [List.mem_singleton] at h
        subst h
        exact digitChar_isDigit _ (Nat.mod_lt _ (by omega))

theorem natOfDigits_foldl (n : Nat) : ∀ a : Nat,
    List.foldl (fun a c => 10 * a + digitVal c) a (natDigitsBE n) =
      a * 10 ^ (natDigitsBE n).length + n := by
  induction n using Nat.strong_induction_on with
  | _ n ih =>
    intro a
    rw [natDigitsBE]
    split
    · next h =>
      simp [digitVal_digitChar n h]
      omega
    · next h =>
      rw [List.foldl_append, ih (n / 10) (Nat.div_lt_self (by omega) (by omega)) a]
      simp only [List.foldl_cons, List.foldl_nil, List.length_append,
        List.length_singleton, digitVal_digitChar (n % 10) (Nat.mod_lt _ (by omega))]
      rw [pow_succ]
      have hdm : 10 * (n / 10) + n % 10 = n := Nat.div_add_mod n 10
      have hm : n % 10 < 10 := Nat.mod_lt _ (by omega)
      nlinarith [Nat.div_add_mod n 10]

theorem natOfDigits_natDigitsBE (n : Nat) : natOfDigits (natDigitsBE n) = n := by
  rw [natOfDigits, natOfDigits_foldl n 0]
  simp

theorem natOfDigits_replicate_zero (k : Nat) (l : List Char) :
    natOfDigits (List.replicate k '0' ++ l) = natOfDigits l := by
  rw [natOfDigits, natOfDigits, List.foldl_append]
  congr 1
  induction k with
  | zero => rfl
  | succ k ihk =>
    rw [List.replicate_succ, List.foldl_cons]
    simpa [digitVal] using ihk

theorem padZeros_all_digit (k : Nat) (l : List Char)
    (hl : ∀ c ∈ l, c.isDigit = true) :
    ∀ c ∈ padZeros k l, c.isDigit = true := by
  intro c hc
  rw [padZeros] at hc
  rcases List.mem_append.mp hc with h | h
  · rw [List.eq_of_mem_replicate h]
    rfl
  · exact hl c h

theorem padZeros_length (k : Nat) (l : List Char) :
    (padZeros k l).length = max k l.length := by
  rw [padZeros, List.length_append, List.length_replicate]
  omega

theorem natOfDigits_padZeros (k : Nat) (l : List Char) :
    natOfDigits (padZeros k l) = natOfDigits l :=
  natOfDigits_replicate_zero _ _

/-! ### takeWhile / dropWhile over a printed token -/

theorem takeWhile_append_all (p : Char → Bool) (l r : List Char)
    (hl : ∀ c ∈ l, p c = true)
    (hr : ∀ c, r.head? = some c → p c = false) :
    (l ++ r).takeWhile p = l ∧ (l ++ r).dropWhile p = r := by
  induction l with
  | nil =>
    simp only [List.nil_append]
    cases r with
    | nil => simp
    | cons c r' =>
      have := hr c rfl
      simp [List.takeWhile_cons, List.dropWhile_cons, this]
  | cons a l' ihl =>
    have ha := hl a (List.mem_cons_self _ _)
    have := ihl (fun c hc => hl c (List.mem_cons_of_mem _ hc))
    simp [List.takeWhile_cons, List.dropWhile_cons, ha, this.1, this.2]

/-! ### Number round trip -/

theorem printDecAbs_zero (n : Nat) :
    printDecAbs n 0 = padZeros 1 (natDigitsBE n) := by
  rw [printDecAbs]
  norm_num

theorem printDecAbs_pos (n e : Nat) (he : e ≠ 0) :
    printDecAbs n e =
      (padZeros (e + 1) (natDigitsBE n)).take
          ((padZeros (e + 1) (natDigitsBE n)).length - e) ++
        '.' :: (padZeros (e + 1) (natDigitsBE n)).drop
          ((padZeros (e + 1) (natDigitsBE n)).length - e) := by
  rw [printDecAbs]
  simp only [if_neg he]

theorem parseNumAbs_printDecAbs (n e : Nat) (rest : List Char)
    (hrest : NumDelim rest) :
    parseNumAbs (printDecAbs n e ++ rest) = some (⟨(n : Int), e⟩, rest) := by
  have hdig : ∀ c ∈ padZeros (e + 1) (natDigitsBE n), c.isDigit = true :=
    padZeros_all_digit _ _ (natDigitsBE_all_digit n)
  have hlen : (padZeros (e + 1) (natDigitsBE n)).length =
      max (e + 1) (natDigitsBE n).length := padZeros_length _ _
  have hval : natOfDigits (padZeros (e + 1) (natDigitsBE n)) = n := by
    rw [natOfDigits_padZeros, natOfDigits_natDigitsBE]
  have hlen1 : e + 1 ≤ (padZeros (e + 1) (natDigitsBE n)).length := by
    rw [hlen]; omega
  by_cases he : e = 0
  · subst he
    rw [printDecAbs_zero]
    have hsplit := takeWhile_append_all Char.isDigit (padZeros 1 (natDigitsBE n))
      rest (by simpa using hdig) (fun c hc => (hrest c hc).1)
    have hne : (padZeros 1 (natDigitsBE n)).isEmpty = false := by
      rw [List.isEmpty_eq_false_iff_exists_mem]
      have : (padZeros 1 (natDigitsBE n)).length = max 1 (natDigitsBE n).length := by
        simpa using hlen
      cases hp : padZeros 1 (natDigitsBE n) with
      | nil =>
        rw [hp] at this
        rw [List.length_nil] at this
        exact absurd this (by omega)
      | cons a l => exact ⟨a, by simp⟩
    simp only [parseNumAbs, hsplit.1, hsplit.2, hne, Bool.false_eq_true,
      if_false]
    cases rest with
    | nil =>
      rw [show natOfDigits (padZeros 1 (natDigitsBE n)) = n from by
        simpa using hval]
    | cons c r2 =>
      have hc := hrest c rfl
      simp only [if_neg hc.2]
      rw [show natOfDigits (padZeros 1 (natDigitsBE n)) = n from by
        simpa using hval]
  · -- e > 0 : integer part, '.', fraction part
    rw [printDecAbs_pos n e he]
    have hA : ∀ c ∈ (padZeros (e + 1) (natDigitsBE n)).take
        ((padZeros (e + 1) (natDigitsBE n)).length - e), c.isDigit = true :=
      fun c hc => hdig c (List.take_subset _ _ hc)
    have hB : ∀ c ∈ (padZeros (e + 1) (natDigitsBE n)).drop
        ((padZeros (e + 1) (natDigitsBE n)).length - e), c.isDigit = true :=
      fun c hc => hdig c (List.drop_subset _ _ hc)
    have hABlen : ((padZeros (e + 1) (natDigitsBE n)).take
        ((padZeros (e + 1) (natDigitsBE n)).length - e)).length =
        (padZeros (e + 1) (natDigitsBE n)).length - e := by
      rw [List.length_take]
      omega
    have hBlen : ((padZeros (e + 1) (natDigitsBE n)).drop
        ((padZeros (e + 1) (natDigitsBE n)).length - e)).length = e := by
      rw [List.length_drop]
      omega
    have hsplit1 := takeWhile_append_all Char.isDigit
      ((padZeros (e + 1) (natDigitsBE n)).take
        ((padZeros (e + 1) (natDigitsBE n)).length - e))
      ('.' :: ((padZeros (e + 1) (natDigitsBE n)).drop
        ((padZeros (e + 1) (natDigitsBE n)).length - e) ++ rest)) hA
      (fun c hc => by
        simp only [List.head?_cons, Option.some.injEq] at hc
        subst hc
        rfl)
    have hsplit2 := takeWhile_append_all Char.isDigit
      ((padZeros (e + 1) (natDigitsBE n)).drop
        ((padZeros (e + 1) (natDigitsBE n)).length - e))
      rest hB (fun c hc => (hrest c hc).1)
    have hne1 : (((padZeros (e + 1) (natDigitsBE n)).take
        ((padZeros (e + 1) (natDigitsBE n)).length - e))).isEmpty = false := by
      cases hp : (padZeros (e + 1) (natDigitsBE n)).take
          ((padZeros (e + 1) (natDigitsBE n)).length - e) with
      | nil =>
        rw [hp, List.length_nil] at hABlen
        omega
      | cons a l => rfl
    have hne2 : (((padZeros (e + 1) (natDigitsBE n)).drop
        ((padZeros (e + 1) (natDigitsBE n)).length - e))).isEmpty = false := by
      cases hp : (padZeros (e + 1) (natDigitsBE n)).drop
          ((padZeros (e + 1) (natDigitsBE n)).length - e) with
      | nil =>
        rw [hp, List.length_nil] at hBlen
        omega
      | cons a l => rfl
    rw [List.append_assoc, List.cons_append]
    simp only [parseNumAbs, hsplit1.1, hsplit1.2, hne1, Bool.false_eq_true,
      if_false, if_pos rfl, hsplit2.1, hsplit2.2, hne2]
    rw [List.take_append_drop, hval, hBlen, if_pos trivial]

theorem printDecAbs_head_digit (n e : Nat) :
    ∀ c, (printDecAbs n e).head? = some c → c.isDigit = true := by
  have hdig : ∀ c ∈ padZeros (e + 1) (natDigitsBE n), c.isDigit = true :=
    padZeros_all_digit _ _ (natDigitsBE_all_digit n)
  have hlen : (padZeros (e + 1) (natDigitsBE n)).length =
      max (e + 1) (natDigitsBE n).length := padZeros_length _ _
  intro c hc
  by_cases he : e = 0
  · subst he
    rw [printDecAbs_zero] at hc
    have hd1 : ∀ x ∈ padZeros 1 (natDigitsBE n), x.isDigit = true :=
      padZeros_all_digit _ _ (natDigitsBE_all_digit n)
    exact hd1 c (List.mem_of_mem_head? hc)
  · rw [printDecAbs_pos n e he, List.head?_append] at hc
    have hht : ((padZeros (e + 1) (natDigitsBE n)).take
        ((padZeros (e + 1) (natDigitsBE n)).length - e)).length =
        (padZeros (e + 1) (natDigitsBE n)).length - e := by
      rw [List.length_take]
      omega
    cases hh : ((padZeros (e + 1) (natDigitsBE n)).take
        ((padZeros (e + 1) (natDigitsBE n)).length - e)).head? with
    | none =>
      rw [List.head?_eq_none_iff] at hh
      rw [hh, List.length_nil] at hht
      omega
    | some c' =>
      rw [hh] at hc
      have hcc : c' = c := Option.some.inj hc
      subst hcc
      exact hdig c' (List.take_subset _ _ (List.mem_of_mem_head? hh))

theorem printDecAbs_ne_nil (n e : Nat) : printDecAbs n e ≠ [] := by
  intro hnil
  have hlen : (padZeros (e + 1) (natDigitsBE n)).length =
      max (e + 1) (natDigitsBE n).length := padZeros_length _ _
  by_cases he : e = 0
  · subst he
    rw [printDecAbs_zero] at hnil
    have := congrArg List.length hnil
    rw [List.length_nil] at this
    have h1 : (padZeros 1 (natDigitsBE n)).length = max 1 (natDigitsBE n).length := by
      simpa using hlen
    rw [h1] at this
    omega
  · rw [printDecAbs_pos n e he] at hnil
    have := congrArg List.length hnil
    rw [List.length_append, List.length_cons, List.length_nil] at this
    omega

theorem parseNum_printDec (d : Dec) (rest : List Char) (hrest : NumDelim rest) :
    parseNum (printDec d ++ rest) = some (d, rest) := by
  obtain ⟨m, e⟩ := d
  rw [printDec]
  by_cases hm : m < 0
  · rw [if_pos hm, List.cons_append, parseNum,
      if_pos (show ('-' : Char) = '-' from rfl),
      parseNumAbs_printDecAbs m.natAbs e rest hrest]
    have habs : -(m.natAbs : Int) = m := by
      omega
    show some ((⟨-(m.natAbs : Int), e⟩ : Dec), rest) = some ((⟨m, e⟩ : Dec), rest)
    rw [habs]
  · simp only [if_neg hm]
    cases hpd : printDecAbs m.natAbs e with
    | nil => exact absurd hpd (printDecAbs_ne_nil _ _)
    | cons c tl =>
      have hcd : c.isDigit = true := printDecAbs_head_digit m.natAbs e c (by rw [hpd]; rfl)
      have hcne : ¬ c = '-' := by
        intro hc
        subst hc
        rw [char_isDigit_iff] at hcd
        simp at hcd
      rw [List.cons_append, parseNum, if_neg hcne, ← List.cons_append, ← hpd,
        parseNumAbs_printDecAbs m.natAbs e rest hrest]
      have habs : (m.natAbs : Int) = m := by omega
      rw [habs]

/-! ### String round trip -/

theorem hexDigitChar_toNat (v : Nat) (h : v < 16) :
    (hexDigitChar v).toNat = if v < 10 then 48 + v else 87 + v := by
  rw [hexDigitChar]
  split
  · rw [char_ofNat_toNat_valid _ (Or.inl (by omega))]
  · rw [char_ofNat_toNat_valid _ (Or.inl (by omega))]

theorem hexVal_hexDigitChar (v : Nat) (h : v < 16) :
    hexVal (hexDigitChar v) = some v := by
  rw [hexVal, hexDigitChar_toNat v h]
  by_cases h10 : v < 10
  · rw [if_pos h10, if_pos (by omega)]
    congr 1
    omega
  · rw [if_neg h10, if_neg (by omega), if_pos (by omega)]
    congr 1
    omega

theorem hexVal4_hex4 (n : Nat) (h : n < 65536) :
    ∀ t : List Char, hex4 n ++ t =
      hexDigitChar (n / 4096 % 16) :: hexDigitChar (n / 256 % 16) ::
        hexDigitChar (n / 16 % 16) :: hexDigitChar (n % 16) :: t := by
  intro t
  rfl

theorem hexVal4_of_hex4 (n : Nat) (h : n < 65536) :
    hexVal4 (hexDigitChar (n / 4096 % 16)) (hexDigitChar (n / 256 % 16))
      (hexDigitChar (n / 16 % 16)) (hexDigitChar (n % 16)) = some n := by
  rw [hexVal4, hexVal_hexDigitChar _ (by omega), hexVal_hexDigitChar _ (by omega),
    hexVal_hexDigitChar _ (by omega), hexVal_hexDigitChar _ (by omega)]
  show some (((n / 4096 % 16 * 16 + n / 256 % 16) * 16 + n / 16 % 16) * 16 + n % 16)
    = some n
  congr 1
  omega

theorem decodeEscape_simple (e ch : Char) (t : List Char)
    (hu : e ≠ 'u') (hs : simpleUnescape e = some ch) :
    decodeEscape (e :: t) = some (ch, t) := by
  simp only [decodeEscape.eq_def]
  rw [if_neg hu, hs]

theorem decodeLowSurrogate_val (h lo : Nat) (hlo : lo < 65536) (t : List Char) :
    decodeLowSurrogate h ('\\' :: 'u' :: hexDigitChar (lo / 4096 % 16) ::
      hexDigitChar (lo / 256 % 16) :: hexDigitChar (lo / 16 % 16) ::
      hexDigitChar (lo % 16) :: t) =
      if 56320 ≤ lo ∧ lo < 57344 then
        some (Char.ofNat (65536 + (h - 55296) * 1024 + (lo - 56320)), t)
      else none := by
  simp only [decodeLowSurrogate]
  rw [if_pos (And.intro trivial trivial), hexVal4_of_hex4 lo hlo]

theorem decodeUnicodeEscape_val (n : Nat) (hn : n < 65536) (t : List Char) :
    decodeUnicodeEscape (hexDigitChar (n / 4096 % 16)) (hexDigitChar (n / 256 % 16))
      (hexDigitChar (n / 16 % 16)) (hexDigitChar (n % 16)) t =
      if 55296 ≤ n ∧ n < 56320 then decodeLowSurrogate n t
      else if 56320 ≤ n ∧ n < 57344 then none
      else some (Char.ofNat n, t) := by
  rw [decodeUnicodeEscape, hexVal4_of_hex4 n hn]

theorem decodeEscape_u (n : Nat) (hn : n < 65536)
    (hns1 : ¬ (55296 ≤ n ∧ n < 56320)) (hns2 : ¬ (56320 ≤ n ∧ n < 57344))
    (t : List Char) :
    decodeEscape ('u' :: (hex4 n ++ t)) = some (Char.ofNat n, t) := by
  rw [show ('u' :: (hex4 n ++ t)) = 'u' :: hexDigitChar (n / 4096 % 16) ::
    hexDigitChar (n / 256 % 16) :: hexDigitChar (n / 16 % 16) ::
    hexDigitChar (n % 16) :: t from by simp [hex4]]
  simp only [decodeEscape]
  rw [if_pos trivial, decodeUnicodeEscape_val n hn t, if_neg hns1, if_neg hns2]

theorem decodeEscape_pair (n : Nat) (h1 : 65536 ≤ n) (h2 : n < 1114112)
    (t : List Char) :
    decodeEscape ('u' :: (hex4 (55296 + (n - 65536) / 1024) ++
      ('\\' :: 'u' :: (hex4 (56320 + (n - 65536) % 1024) ++ t)))) =
      some (Char.ofNat n, t) := by
  have hdiv : (n - 65536) / 1024 < 1024 := by omega
  have hmod : (n - 65536) % 1024 < 1024 := Nat.mod_lt _ (by omega)
  have hhi : 55296 + (n - 65536) / 1024 < 65536 := by omega
  have hlo : 56320 + (n - 65536) % 1024 < 65536 := by omega
  rw [show ('u' :: (hex4 (55296 + (n - 65536) / 1024) ++
      ('\\' :: 'u' :: (hex4 (56320 + (n - 65536) % 1024) ++ t)))) =
    'u' :: hexDigitChar ((55296 + (n - 65536) / 1024) / 4096 % 16) ::
      hexDigitChar ((55296 + (n - 65536) / 1024) / 256 % 16) ::
      hexDigitChar ((55296 + (n - 65536) / 1024) / 16 % 16) ::
      hexDigitChar ((55296 + (n - 65536) / 1024) % 16) ::
      '\\' :: 'u' :: hexDigitChar ((56320 + (n - 65536) % 1024) / 4096 % 16) ::
      hexDigitChar ((56320 + (n - 65536) % 1024) / 256 % 16) ::
      hexDigitChar ((56320 + (n - 65536) % 1024) / 16 % 16) ::
      hexDigitChar ((56320 + (n - 65536) % 1024) % 16) :: t from by simp [hex4]]
  simp only [decodeEscape]
  rw [if_pos trivial, decodeUnicodeEscape_val _ hhi _,
    if_pos (by omega : 55296 ≤ 55296 + (n - 65536) / 1024 ∧
      55296 + (n - 65536) / 1024 < 56320),
    decodeLowSurrogate_val _ _ hlo t,
    if_pos (by omega : 56320 ≤ 56320 + (n - 65536) % 1024 ∧
      56320 + (n - 65536) % 1024 < 57344)]
  have hrec : 65536 + (55296 + (n - 65536) / 1024 - 55296) * 1024 +
      (56320 + (n - 65536) % 1024 - 56320) = n := by
    omega
  rw [hrec]

theorem parseStringBody_cons (c : Char) (r : List Char) :
    parseStringBody (c :: r) =
      if c = '"' then some ([], r)
      else if c = '\\' then
        match decodeEscape r with
        | none => none
        | some (ch, r1) =>
          match parseStringBody r1 with
          | some (cs, rest) => some (ch :: cs, rest)
          | none => none
      else if c.toNat < 32 then none
      else
        match parseStringBody r with
        | some (cs, rest) => some (c :: cs, rest)
        | none => none := by
  rw [parseStringBody]
  by_cases hq : c = '"'
  · rw [if_pos hq, if_pos hq]
  · rw [if_neg hq, if_neg hq]
    by_cases hb : c = '\\'
    · rw [if_pos hb, if_pos hb]
      split
      · next heq => rw [heq]
      · next ch r1 heq => rw [heq]
    · rw [if_neg hb, if_neg hb]

theorem parseStringBody_escape (c : Char) (esc : List Char) (t : List Char)
    (hdec : decodeEscape (esc ++ t) = some (c, t)) :
    parseStringBody ('\\' :: (esc ++ t)) =
      match parseStringBody t with
      | some (cs, rest) => some (c :: cs, rest)
      | none => none := by
  rw [parseStringBody_cons, if_neg (by decide), if_pos rfl, hdec]

theorem parseStringBody_encodeChar (c : Char) (t : List Char) :
    parseStringBody (encodeChar c ++ t) =
      match parseStringBody t with
      | some (cs, rest) => some (c :: cs, rest)
      | none => none := by
  have hvalid := char_valid_nat c
  rw [encodeChar]
  by_cases hq : c = '"'
  · subst hq
    rw [if_pos rfl,
      show (['\\', '"'] ++ t) = '\\' :: (['"'] ++ t) from rfl]
    exact parseStringBody_escape _ _ _ (decodeEscape_simple _ _ _ (by decide) rfl)
  · rw [if_neg hq]
    by_cases hb : c = '\\'
    · subst hb
      rw [if_pos rfl,
        show (['\\', '\\'] ++ t) = '\\' :: (['\\'] ++ t) from rfl]
      exact parseStringBody_escape _ _ _ (decodeEscape_simple _ _ _ (by decide) rfl)
    · rw [if_neg hb]
      by_cases h08 : c = '\x08'
      · subst h08
        rw [if_pos rfl,
          show (['\\', 'b'] ++ t) = '\\' :: (['b'] ++ t) from rfl]
        exact parseStringBody_escape _ _ _ (decodeEscape_simple _ _ _ (by decide) rfl)
      · rw [if_neg h08]
        by_cases h0c : c = '\x0c'
        · subst h0c
          rw [if_pos rfl,
            show (['\\', 'f'] ++ t) = '\\' :: (['f'] ++ t) from rfl]
          exact parseStringBody_escape _ _ _ (decodeEscape_simple _ _ _ (by decide) rfl)
        · rw [if_neg h0c]
          by_cases h0a : c = '\n'
          · subst h0a
            rw [if_pos rfl,
              show (['\\', 'n'] ++ t) = '\\' :: (['n'] ++ t) from rfl]
            exact parseStringBody_escape _ _ _ (decodeEscape_simple _ _ _ (by decide) rfl)
          · rw [if_neg h0a]
            by_cases h0d : c = '\x0d'
            · subst h0d
              rw [if_pos rfl,
                show (['\\', 'r'] ++ t) = '\\' :: (['r'] ++ t) from rfl]
              exact parseStringBody_escape _ _ _ (decodeEscape_simple _ _ _ (by decide) rfl)
            · rw [if_neg h0d]
              by_cases h09 : c = '\t'
              · subst h09
                rw [if_pos rfl,
                  show (['\\', 't'] ++ t) = '\\' :: (['t'] ++ t) from rfl]
                exact parseStringBody_escape _ _ _
                  (decodeEscape_simple _ _ _ (by decide) rfl)
              · rw [if_neg h09]
                by_cases hesc : c.toNat < 32 ∨ 126 < c.toNat
                · rw [if_pos hesc]
                  by_cases hbmp : c.toNat < 65536
                  · rw [if_pos hbmp]
                    have hns1 : ¬ (55296 ≤ c.toNat ∧ c.toNat < 56320) := by
                      rcases hvalid with h | ⟨hv1, hv2⟩ <;> omega
                    have hns2 : ¬ (56320 ≤ c.toNat ∧ c.toNat < 57344) := by
                      rcases hvalid with h | ⟨hv1, hv2⟩ <;> omega
                    rw [show ('\\' :: 'u' :: hex4 c.toNat ++ t) =
                      '\\' :: (('u' :: (hex4 c.toNat ++ t))) from by simp]
                    rw [show ('u' :: (hex4 c.toNat ++ t)) =
                      ('u' :: hex4 c.toNat) ++ t from by simp]
                    refine parseStringBody_escape _ _ _ ?_
                    rw [show (('u' :: hex4 c.toNat) ++ t) =
                      'u' :: (hex4 c.toNat ++ t) from by simp]
                    rw [decodeEscape_u c.toNat hbmp hns1 hns2 t, char_ofNat_toNat]
                  · rw [if_neg hbmp]
                    have hlt : c.toNat < 1114112 := by
                      rcases hvalid with h | ⟨hv1, hv2⟩ <;> omega
                    have hge : 65536 ≤ c.toNat := by omega
                    rw [show (('\\' :: 'u' :: hex4 (55296 + (c.toNat - 65536) / 1024)) ++
                        ('\\' :: 'u' :: hex4 (56320 + (c.toNat - 65536) % 1024)) ++ t) =
                      '\\' :: (('u' :: (hex4 (55296 + (c.toNat - 65536) / 1024) ++
                        ('\\' :: 'u' :: (hex4 (56320 + (c.toNat - 65536) % 1024) ++ t))))) from by
                      simp]
                    rw [show ('u' :: (hex4 (55296 + (c.toNat - 65536) / 1024) ++
                        ('\\' :: 'u' :: (hex4 (56320 + (c.toNat - 65536) % 1024) ++ t)))) =
                      ('u' :: (hex4 (55296 + (c.toNat - 65536) / 1024) ++
                        ('\\' :: 'u' :: hex4 (56320 + (c.toNat - 65536) % 1024)))) ++ t from by
                      simp]
                    refine parseStringBody_escape _ _ _ ?_
                    rw [show (('u' :: (hex4 (55296 + (c.toNat - 65536) / 1024) ++
                        ('\\' :: 'u' :: hex4 (56320 + (c.toNat - 65536) % 1024)))) ++ t) =
                      'u' :: (hex4 (55296 + (c.toNat - 65536) / 1024) ++
                        ('\\' :: 'u' :: (hex4 (56320 + (c.toNat - 65536) % 1024) ++ t))) from by
                      simp]
                    rw [decodeEscape_pair c.toNat hge hlt t, char_ofNat_toNat]
                · rw [if_neg hesc]
                  push_neg at hesc
                  rw [List.singleton_append, parseStringBody_cons, if_neg hq,
                    if_neg hb, if_neg (by omega)]

theorem parseStringBody_printString (cs : List Char) (t : List Char) :
    parseStringBody ((cs.map encodeChar).flatten ++ '"' :: t) = some (cs, t) := by
  induction cs with
  | nil =>
    rw [List.map_nil, List.flatten_nil, List.nil_append, parseStringBody_cons,
      if_pos rfl]
  | cons c cs' ih =>
    rw [List.map_cons, List.flatten_cons, List.append_assoc,
      parseStringBody_encodeChar, ih]

/-! ### Whitespace and head-character lemmas -/

theorem skipWs_append_ws (w t : List Char) (hw : ∀ c ∈ w, isWsChar c = true) :
    skipWs (w ++ t) = skipWs t := by
  induction w with
  | nil => rfl
  | cons a w' ih =>
    rw [List.cons_append, skipWs, List.dropWhile_cons,
      hw a (List.mem_cons_self _ _)]
    exact ih fun c hc => hw c (List.mem_cons_of_mem _ hc)

theorem skipWs_cons_not_ws (c : Char) (t : List Char) (h : isWsChar c = false) :
    skipWs (c :: t) = c :: t := by
  simp [skipWs, List.dropWhile_cons, h]

theorem nlInd_ws (ind lvl : Nat) : ∀ c ∈ nlInd ind lvl, isWsChar c = true := by
  intro c hc
  rw [nlInd] at hc
  rcases List.mem_cons.mp hc with rfl | hc
  · rfl
  · rw [List.eq_of_mem_replicate hc]
    rfl

theorem digit_head_facts (c : Char) (h : c.isDigit = true) :
    isWsChar c = false ∧ c ≠ ']' ∧ c ≠ '}' ∧ c ≠ ',' ∧ c ≠ '"' ∧ c ≠ '[' ∧
      c ≠ '{' ∧ c ≠ 'n' ∧ c ≠ 't' ∧ c ≠ 'f' ∧ c ≠ '-' := by
  rw [char_isDigit_iff] at h
  refine ⟨?_, ?_, ?_, ?_, ?_, ?_, ?_, ?_, ?_, ?_, ?_⟩
  · rw [isWsChar]
    have h1 : (c = ' ') = False := by
      rw [eq_iff_iff, iff_false]
      intro hh; subst hh; exact absurd h (by decide)
    have h2 : (c = '\t') = False := by
      rw [eq_iff_iff, iff_false]
      intro hh; subst hh; exact absurd h (by decide)
    have h3 : (c = '\n') = False := by
      rw [eq_iff_iff, iff_false]
      intro hh; subst hh; exact absurd h (by decide)
    have h4 : (c = '\x0d') = False := by
      rw [eq_iff_iff, iff_false]
      intro hh; subst hh; exact absurd h (by decide)
    simp [h1, h2, h3, h4]
  all_goals
    intro hh
  all_goals
    subst hh
  all_goals
    exact absurd h (by decide)

/-- The first character of a printed value is never whitespace, a closing
bracket, a closing brace or a comma. -/
theorem printValue_head (ind lvl : Nat) (j : Json) :
    ∃ c cs, printValue ind lvl j = c :: cs ∧ isWsChar c = false ∧
      c ≠ ']' ∧ c ≠ '}' := by
  cases j with
  | num d =>
    rw [printValue, printDec]
    by_cases hm : d.m < 0
    · rw [if_pos hm]
      refine ⟨'-', _, rfl, ?_, ?_, ?_⟩ <;> decide
    · rw [if_neg hm]
      cases hpd : printDecAbs d.m.natAbs d.e with
      | nil => exact absurd hpd (printDecAbs_ne_nil _ _)
      | cons c cs =>
        have hcd := printDecAbs_head_digit d.m.natAbs d.e c (by rw [hpd]; rfl)
        have hf := digit_head_facts c hcd
        exact ⟨c, cs, rfl, hf.1, hf.2.1, hf.2.2.1⟩
  | null =>
    refine ⟨'n', _, rfl, ?_, ?_, ?_⟩ <;> decide
  | bool b =>
    cases b with
    | true => refine ⟨'t', _, rfl, ?_, ?_, ?_⟩ <;> decide
    | false => refine ⟨'f', _, rfl, ?_, ?_, ?_⟩ <;> decide
  | str s =>
    refine ⟨'"', _, rfl, ?_, ?_, ?_⟩ <;> decide
  | arr xs =>
    cases xs with
    | nil => refine ⟨'[', _, rfl, ?_, ?_, ?_⟩ <;> decide
    | cons x xs' => refine ⟨'[', _, rfl, ?_, ?_, ?_⟩ <;> decide
  | obj kvs =>
    cases kvs with
    | nil => refine ⟨'\x7b', _, rfl, ?_, ?_, ?_⟩ <;> decide
    | cons kv kvs' => refine ⟨'\x7b', _, rfl, ?_, ?_, ?_⟩ <;> decide

/-! ### Delimiter helpers -/

theorem numDelim_nil : NumDelim [] := by
  intro c hc
  cases hc

theorem numDelim_cons (c : Char) (t : List Char) (h1 : c.isDigit = false)
    (h2 : c ≠ '.') : NumDelim (c :: t) := by
  intro c' hc'
  rw [List.head?_cons, Option.some.injEq] at hc'
  subst hc'
  exact ⟨h1, h2⟩

theorem ws_not_digit (c : Char) (h : isWsChar c = true) :
    c.isDigit = false ∧ c ≠ '.' := by
  rw [isWsChar] at h
  simp only [Bool.or_eq_true, decide_eq_true_eq] at h
  rcases h with ((rfl | rfl) | rfl) | rfl <;> exact ⟨by decide, by decide⟩

theorem numDelim_ws_append (w t : List Char)
    (hw : ∀ c ∈ w, isWsChar c = true) (ht : NumDelim t) :
    NumDelim (w ++ t) := by
  cases w with
  | nil => exact ht
  | cons a w' =>
    have ha := ws_not_digit a (hw a (List.mem_cons_self _ _))
    exact numDelim_cons a _ ha.1 ha.2

/-- The first character of a printed decimal. -/
theorem printDec_head (d : Dec) :
    ∃ c cs, printDec d = c :: cs ∧ isWsChar c = false ∧ c ≠ '"' ∧ c ≠ '[' ∧
      c ≠ '{' ∧ c ≠ 'n' ∧ c ≠ 't' ∧ c ≠ 'f' := by
  rw [printDec]
  by_cases hm : d.m < 0
  · rw [if_pos hm]
    exact ⟨'-', _, rfl, by decide, by decide, by decide, by decide, by decide,
      by decide, by decide⟩
  · rw [if_neg hm]
    cases hpd : printDecAbs d.m.natAbs d.e with
    | nil => exact absurd hpd (printDecAbs_ne_nil _ _)
    | cons c cs =>
      have hcd := printDecAbs_head_digit d.m.natAbs d.e c (by rw [hpd]; rfl)
      rw [char_isDigit_iff] at hcd
      refine ⟨c, cs, rfl, ?_, ?_, ?_, ?_, ?_, ?_, ?_⟩
      · rw [isWsChar]
        have h1 : (c = ' ') = False := by
          rw [eq_iff_iff, iff_false]
          intro hh; subst hh; exact absurd hcd (by decide)
        have h2 : (c = '\t') = False := by
          rw [eq_iff_iff, iff_false]
          intro hh; subst hh; exact absurd hcd (by decide)
        have h3 : (c = '\n') = False := by
          rw [eq_iff_iff, iff_false]
          intro hh; subst hh; exact absurd hcd (by decide)
        have h4 : (c = '\x0d') = False := by
          rw [eq_iff_iff, iff_false]
          intro hh; subst hh; exact absurd hcd (by decide)
        simp [h1, h2, h3, h4]
      all_goals
        intro hh
      all_goals
        subst hh
      all_goals
        exact absurd hcd (by decide)

theorem sizeJ_pos (j : Json) : 1 ≤ sizeJ j := by
  cases j <;> simp [sizeJ]

/-! ### The parser reads back what the printer wrote -/

theorem parse_print (fuel : Nat) :
    (∀ j ind lvl w rest, sizeJ j ≤ fuel → (∀ c ∈ w, isWsChar c = true) →
      NumDelim rest →
      parseValue fuel (w ++ printValue ind lvl j ++ rest) = some (j, rest)) ∧
    (∀ x xs ind lvl w0 w1 rest, sizeL (x :: xs) ≤ fuel →
      (∀ c ∈ w0, isWsChar c = true) → (∀ c ∈ w1, isWsChar c = true) →
      parseElems fuel (w0 ++ printValue ind lvl x ++ printElemsTail ind lvl xs ++
        (w1 ++ (']' :: rest))) = some (x :: xs, rest)) ∧
    (∀ k v kvs ind lvl w0 w1 rest, sizeM ((k, v) :: kvs) ≤ fuel →
      (∀ c ∈ w0, isWsChar c = true) → (∀ c ∈ w1, isWsChar c = true) →
      parseMembers fuel (w0 ++ printString k ++ ':' :: ' ' ::
        printValue ind lvl v ++ printMembersTail ind lvl kvs ++
        (w1 ++ ('}' :: rest))) = some ((k, v) :: kvs, rest)) := by
  induction fuel with
  | zero =>
    refine ⟨?_, ?_, ?_⟩
    · intro j _ _ _ _ hsz _ _
      have := sizeJ_pos j
      omega
    · intro x xs _ _ _ _ _ hsz _ _
      simp only [sizeL] at hsz
      omega
    · intro k v kvs _ _ _ _ _ hsz _ _
      simp only [sizeM] at hsz
      omega
  | succ fuel ih =>
    obtain ⟨ihP, ihE, ihM⟩ := ih
    have hP : ∀ j ind lvl w rest, sizeJ j ≤ fuel + 1 →
        (∀ c ∈ w, isWsChar c = true) → NumDelim rest →
        parseValue (fuel + 1) (w ++ printValue ind lvl j ++ rest) =
          some (j, rest) := by
      intro j ind lvl w rest hsz hw hrest
      cases j with
      | null =>
        have hskip : skipWs (w ++ printValue ind lvl Json.null ++ rest) =
            'n' :: ('u' :: 'l' :: 'l' :: rest) := by
          rw [List.append_assoc, skipWs_append_ws w _ hw]
          rw [show printValue ind lvl Json.null ++ rest =
            'n' :: ('u' :: 'l' :: 'l' :: rest) from by rw [printValue]; rfl]
          exact skipWs_cons_not_ws _ _ (by decide)
        simp only [parseValue, hskip]
        simp
      | bool b =>
        cases b with
        | true =>
          have hskip : skipWs (w ++ printValue ind lvl (Json.bool true) ++ rest) =
              't' :: ('r' :: 'u' :: 'e' :: rest) := by
            rw [List.append_assoc, skipWs_append_ws w _ hw]
            rw [show printValue ind lvl (Json.bool true) ++ rest =
              't' :: ('r' :: 'u' :: 'e' :: rest) from by rw [printValue]; rfl]
            exact skipWs_cons_not_ws _ _ (by decide)
          simp only [parseValue, hskip]
          simp
        | false =>
          have hskip : skipWs (w ++ printValue ind lvl (Json.bool false) ++ rest) =
              'f' :: ('a' :: 'l' :: 's' :: 'e' :: rest) := by
            rw [List.append_assoc, skipWs_append_ws w _ hw]
            rw [show printValue ind lvl (Json.bool false) ++ rest =
              'f' :: ('a' :: 'l' :: 's' :: 'e' :: rest) from by rw [printValue]; rfl]
            exact skipWs_cons_not_ws _ _ (by decide)
          simp only [parseValue, hskip]
          simp
      | num d =>
        obtain ⟨c, cs, hpd, hws, hq, hlb, hcb, hn, ht, hf⟩ := printDec_head d
        have hform : printValue ind lvl (Json.num d) ++ rest = c :: (cs ++ rest) := by
          rw [printValue, hpd]
          rfl
        have hskip : skipWs (w ++ printValue ind lvl (Json.num d) ++ rest) =
            c :: (cs ++ rest) := by
          rw [List.append_assoc, skipWs_append_ws w _ hw, hform]
          exact skipWs_cons_not_ws _ _ hws
        simp only [parseValue, hskip]
        rw [if_neg hq, if_neg hlb, if_neg hcb, if_neg hn, if_neg ht,
          if_neg hf]
        rw [show c :: (cs ++ rest) = printDec d ++ rest from by rw [hpd]; rfl,
          parseNum_printDec d rest hrest]
      | str s =>
        have hskip : skipWs (w ++ printValue ind lvl (Json.str s) ++ rest) =
            '"' :: ((s.data.map encodeChar).flatten ++ ('"' :: rest)) := by
          rw [List.append_assoc, skipWs_append_ws w _ hw]
          rw [show printValue ind lvl (Json.str s) ++ rest =
            '"' :: ((s.data.map encodeChar).flatten ++ ('"' :: rest)) from by
            rw [printValue, printString]
            simp]
          exact skipWs_cons_not_ws _ _ (by decide)
        simp only [parseValue, hskip, parseStringBody_printString s.data rest]
        cases s
        rfl
      | arr xs =>
        cases xs with
        | nil =>
          have hskip : skipWs (w ++ printValue ind lvl (Json.arr []) ++ rest) =
              '[' :: (']' :: rest) := by
            rw [List.append_assoc, skipWs_append_ws w _ hw]
            rw [show printValue ind lvl (Json.arr []) ++ rest =
              '[' :: (']' :: rest) from by rw [printValue]; rfl]
            exact skipWs_cons_not_ws _ _ (by decide)
          simp only [parseValue, hskip]
          have hskip2 : skipWs (']' :: rest) = ']' :: rest :=
            skipWs_cons_not_ws _ _ (by decide)
          simp [hskip2]
        | cons x xs' =>
          have hsz' : sizeL (x :: xs') ≤ fuel := by
            simp only [sizeJ] at hsz
            omega
          obtain ⟨cx, csx, hpx, hwx, hbx, _⟩ := printValue_head ind (lvl + 1) x
          have hskip : skipWs (w ++ printValue ind lvl (Json.arr (x :: xs')) ++ rest) =
              '[' :: (nlInd ind (lvl + 1) ++ printValue ind (lvl + 1) x ++
                printElemsTail ind (lvl + 1) xs' ++ (nlInd ind lvl ++ (']' :: rest))) := by
            rw [List.append_assoc, skipWs_append_ws w _ hw]
            rw [show printValue ind lvl (Json.arr (x :: xs')) ++ rest =
              '[' :: (nlInd ind (lvl + 1) ++ printValue ind (lvl + 1) x ++
                printElemsTail ind (lvl + 1) xs' ++ (nlInd ind lvl ++ (']' :: rest)))
              from by rw [printValue]; simp]
            exact skipWs_cons_not_ws _ _ (by decide)
          simp only [parseValue, hskip]
          have hskip2 : skipWs (nlInd ind (lvl + 1) ++ printValue ind (lvl + 1) x ++
              printElemsTail ind (lvl + 1) xs' ++ (nlInd ind lvl ++ (']' :: rest))) =
              cx :: (csx ++ (printElemsTail ind (lvl + 1) xs' ++
                (nlInd ind lvl ++ (']' :: rest)))) := by
            rw [List.append_assoc, List.append_assoc,
              skipWs_append_ws _ _ (nlInd_ws ind (lvl + 1)), hpx]
            rw [show cx :: csx ++ (printElemsTail ind (lvl + 1) xs' ++
              (nlInd ind lvl ++ (']' :: rest))) = cx :: (csx ++
              (printElemsTail ind (lvl + 1) xs' ++ (nlInd ind lvl ++ (']' :: rest))))
              from rfl]
            exact skipWs_cons_not_ws _ _ hwx
          simp only [hskip2]
          rw [if_neg hbx]
          have helems := ihE x xs' ind (lvl + 1) [] (nlInd ind lvl) rest hsz'
            (by intro c hc; cases hc) (nlInd_ws ind lvl)
          rw [show cx :: (csx ++ (printElemsTail ind (lvl + 1) xs' ++
            (nlInd ind lvl ++ (']' :: rest)))) = [] ++ printValue ind (lvl + 1) x ++
            printElemsTail ind (lvl + 1) xs' ++ (nlInd ind lvl ++ (']' :: rest))
            from by rw [hpx]; simp]
          simp only [helems]
          simp
      | obj kvs =>
        cases kvs with
        | nil =>
          have hskip : skipWs (w ++ printValue ind lvl (Json.obj []) ++ rest) =
              '{' :: ('}' :: rest) := by
            rw [List.append_assoc, skipWs_append_ws w _ hw]
            rw [show printValue ind lvl (Json.obj []) ++ rest =
              '{' :: ('}' :: rest) from by rw [printValue]; rfl]
            exact skipWs_cons_not_ws _ _ (by decide)
          simp only [parseValue, hskip]
          have hskip2 : skipWs ('}' :: rest) = '}' :: rest :=
            skipWs_cons_not_ws _ _ (by decide)
          simp [hskip2]
        | cons kv kvs' =>
          obtain ⟨k, v⟩ := kv
          have hsz' : sizeM ((k, v) :: kvs') ≤ fuel := by
            simp only [sizeJ] at hsz
            omega
          have hskip : skipWs (w ++ printValue ind lvl (Json.obj ((k, v) :: kvs')) ++ rest) =
              '{' :: (nlInd ind (lvl + 1) ++ printString k ++ ':' :: ' ' ::
                printValue ind (lvl + 1) v ++ printMembersTail ind (lvl + 1) kvs' ++
                (nlInd ind lvl ++ ('}' :: rest))) := by
            rw [List.append_assoc, skipWs_append_ws w _ hw]
            rw [show printValue ind lvl (Json.obj ((k, v) :: kvs')) ++ rest =
              '{' :: (nlInd ind (lvl + 1) ++ printString k ++ ':' :: ' ' ::
                printValue ind (lvl + 1) v ++ printMembersTail ind (lvl + 1) kvs' ++
                (nlInd ind lvl ++ ('}' :: rest))) from by rw [printValue]; simp]
            exact skipWs_cons_not_ws _ _ (by decide)
          simp only [parseValue, hskip]
          have hskip2 : skipWs (nlInd ind (lvl + 1) ++ printString k ++ ':' :: ' ' ::
              printValue ind (lvl + 1) v ++ printMembersTail ind (lvl + 1) kvs' ++
              (nlInd ind lvl ++ ('}' :: rest))) =
              '"' :: ((k.data.map encodeChar).flatten ++ ('"' :: (':' :: ' ' ::
                printValue ind (lvl + 1) v ++ printMembersTail ind (lvl + 1) kvs' ++
                (nlInd ind lvl ++ ('}' :: rest))))) := by
            rw [show nlInd ind (lvl + 1) ++ printString k ++ ':' :: ' ' ::
              printValue ind (lvl + 1) v ++ printMembersTail ind (lvl + 1) kvs' ++
              (nlInd ind lvl ++ ('}' :: rest)) = nlInd ind (lvl + 1) ++
              ('"' :: ((k.data.map encodeChar).flatten ++ ('"' :: (':' :: ' ' ::
                printValue ind (lvl + 1) v ++ printMembersTail ind (lvl + 1) kvs' ++
                (nlInd ind lvl ++ ('}' :: rest)))))) from by rw [printString]; simp]
            rw [skipWs_append_ws _ _ (nlInd_ws ind (lvl + 1))]
            exact skipWs_cons_not_ws _ _ (by decide)
          simp only [hskip2]
          have hmem := ihM k v kvs' ind (lvl + 1) [] (nlInd ind lvl) rest hsz'
            (by intro c hc; cases hc) (nlInd_ws ind lvl)
          rw [show '"' :: ((k.data.map encodeChar).flatten ++ ('"' :: (':' :: ' ' ::
            printValue ind (lvl + 1) v ++ printMembersTail ind (lvl + 1) kvs' ++
            (nlInd ind lvl ++ ('}' :: rest))))) = [] ++ printString k ++ ':' :: ' ' ::
            printValue ind (lvl + 1) v ++ printMembersTail ind (lvl + 1) kvs' ++
            (nlInd ind lvl ++ ('}' :: rest)) from by rw [printString]; simp]
          simp only [hmem]
          simp
    refine ⟨hP, ?_, ?_⟩
    · -- parseElems
      intro x xs ind lvl w0 w1 rest hsz hw0 hw1
      have hszx : sizeJ x ≤ fuel := by
        simp only [sizeL] at hsz
        omega
      have hrest' : NumDelim (printElemsTail ind lvl xs ++ (w1 ++ (']' :: rest))) := by
        cases xs with
        | nil =>
          rw [printElemsTail, List.nil_append]
          exact numDelim_ws_append w1 _ hw1
            (numDelim_cons _ _ (by decide) (by decide))
        | cons x' xs' =>
          rw [printElemsTail]
          exact numDelim_cons _ _ (by decide) (by decide)
      have hv := ihP x ind lvl w0
        (printElemsTail ind lvl xs ++ (w1 ++ (']' :: rest))) hszx hw0 hrest'
      simp only [parseElems]
      rw [show w0 ++ printValue ind lvl x ++ printElemsTail ind lvl xs ++
          (w1 ++ (']' :: rest)) = w0 ++ printValue ind lvl x ++
          (printElemsTail ind lvl xs ++ (w1 ++ (']' :: rest))) from by simp]
      simp only [hv]
      cases xs with
      | nil =>
        have hskip : skipWs (printElemsTail ind lvl [] ++ (w1 ++ (']' :: rest))) =
            ']' :: rest := by
          rw [printElemsTail, List.nil_append, skipWs_append_ws w1 _ hw1]
          exact skipWs_cons_not_ws _ _ (by decide)
        simp only [hskip]
        simp
      | cons x' xs' =>
        have hszl : sizeL (x' :: xs') ≤ fuel := by
          simp only [sizeL] at hsz ⊢
          omega
        have hskip : skipWs (printElemsTail ind lvl (x' :: xs') ++
            (w1 ++ (']' :: rest))) = ',' :: (nlInd ind lvl ++
            printValue ind lvl x' ++ printElemsTail ind lvl xs' ++
            (w1 ++ (']' :: rest))) := by
          rw [show printElemsTail ind lvl (x' :: xs') ++ (w1 ++ (']' :: rest)) =
            ',' :: (nlInd ind lvl ++ printValue ind lvl x' ++
            printElemsTail ind lvl xs' ++ (w1 ++ (']' :: rest))) from by
            rw [printElemsTail]; simp]
          exact skipWs_cons_not_ws _ _ (by decide)
        simp only [hskip]
        have helems := ihE x' xs' ind lvl (nlInd ind lvl) w1 rest hszl
          (nlInd_ws ind lvl) hw1
        simp only [helems]
        simp
    · -- parseMembers
      intro k v kvs ind lvl w0 w1 rest hsz hw0 hw1
      have hszv : sizeJ v ≤ fuel := by
        simp only [sizeM] at hsz
        omega
      have hskip : skipWs (w0 ++ printString k ++ ':' :: ' ' ::
          printValue ind lvl v ++ printMembersTail ind lvl kvs ++
          (w1 ++ ('}' :: rest))) =
          '"' :: ((k.data.map encodeChar).flatten ++ ('"' :: (':' :: ' ' ::
            printValue ind lvl v ++ printMembersTail ind lvl kvs ++
            (w1 ++ ('}' :: rest))))) := by
        rw [show w0 ++ printString k ++ ':' :: ' ' :: printValue ind lvl v ++
          printMembersTail ind lvl kvs ++ (w1 ++ ('}' :: rest)) = w0 ++
          ('"' :: ((k.data.map encodeChar).flatten ++ ('"' :: (':' :: ' ' ::
            printValue ind lvl v ++ printMembersTail ind lvl kvs ++
            (w1 ++ ('}' :: rest)))))) from by rw [printString]; simp]
        rw [skipWs_append_ws w0 _ hw0]
        exact skipWs_cons_not_ws _ _ (by decide)
      simp only [parseMembers, hskip,
        parseStringBody_printString k.data (':' :: ' ' ::
          printValue ind lvl v ++ printMembersTail ind lvl kvs ++
          (w1 ++ ('}' :: rest)))]
      have hskip2 : skipWs (':' :: ' ' :: printValue ind lvl v ++
          printMembersTail ind lvl kvs ++ (w1 ++ ('}' :: rest))) =
          ':' :: (' ' :: printValue ind lvl v ++
          printMembersTail ind lvl kvs ++ (w1 ++ ('}' :: rest))) := by
        rw [show (':' :: ' ' :: printValue ind lvl v ++
          printMembersTail ind lvl kvs ++ (w1 ++ ('}' :: rest))) =
          ':' :: (' ' :: printValue ind lvl v ++
          printMembersTail ind lvl kvs ++ (w1 ++ ('}' :: rest))) from by simp]
        exact skipWs_cons_not_ws _ _ (by decide)
      simp only [hskip2]
      have hrest' : NumDelim (printMembersTail ind lvl kvs ++
          (w1 ++ ('}' :: rest))) := by
        cases kvs with
        | nil =>
          rw [printMembersTail, List.nil_append]
          exact numDelim_ws_append w1 _ hw1
            (numDelim_cons _ _ (by decide) (by decide))
        | cons kv' kvs' =>
          rw [printMembersTail]
          exact numDelim_cons _ _ (by decide) (by decide)
      have hv := ihP v ind lvl [' ']
        (printMembersTail ind lvl kvs ++ (w1 ++ ('}' :: rest))) hszv
        (by intro c hc; rw [List.mem_singleton] at hc; subst hc; rfl) hrest'
      rw [show (' ' :: printValue ind lvl v ++ printMembersTail ind lvl kvs ++
        (w1 ++ ('}' :: rest))) = [' '] ++ printValue ind lvl v ++
        (printMembersTail ind lvl kvs ++ (w1 ++ ('}' :: rest))) from by simp]
      simp only [hv]
      have hkdata : String.mk k.data = k := by
        cases k
        rfl
      cases kvs with
      | nil =>
        have hskip3 : skipWs (printMembersTail ind lvl [] ++
            (w1 ++ ('}' :: rest))) = '}' :: rest := by
          rw [printMembersTail, List.nil_append, skipWs_append_ws w1 _ hw1]
          exact skipWs_cons_not_ws _ _ (by decide)
        simp only [hskip3]
        simp [hkdata]
      | cons kv' kvs' =>
        obtain ⟨k', v'⟩ := kv'
        have hszm : sizeM ((k', v') :: kvs') ≤ fuel := by
          simp only [sizeM] at hsz ⊢
          omega
        have hskip3 : skipWs (printMembersTail ind lvl ((k', v') :: kvs') ++
            (w1 ++ ('}' :: rest))) = ',' :: (nlInd ind lvl ++
            printString k' ++ ':' :: ' ' :: printValue ind lvl v' ++
            printMembersTail ind lvl kvs' ++ (w1 ++ ('}' :: rest))) := by
          rw [show printMembersTail ind lvl ((k', v') :: kvs') ++
            (w1 ++ ('}' :: rest)) = ',' :: (nlInd ind lvl ++ printString k' ++
            ':' :: ' ' :: printValue ind lvl v' ++ printMembersTail ind lvl kvs' ++
            (w1 ++ ('}' :: rest))) from by rw [printMembersTail]; simp]
          exact skipWs_cons_not_ws _ _ (by decide)
        simp only [hskip3]
        have hmem := ihM k' v' kvs' ind lvl (nlInd ind lvl) w1 rest hszm
          (nlInd_ws ind lvl) hw1
        simp only [hmem]
        simp [hkdata]

/-! ### The parser fuel suffices: printed size bounds -/

mutual

theorem sizeJ_le_printValue (ind lvl : Nat) :
    (j : Json) → sizeJ j ≤ (printValue ind lvl j).length
  | Json.null => by rw [printValue]; simp [sizeJ]
  | Json.bool true => by rw [printValue]; simp [sizeJ]
  | Json.bool false => by rw [printValue]; simp [sizeJ]
  | Json.num d => by
    rw [printValue]
    obtain ⟨c, cs, hpd, _⟩ := printDec_head d
    rw [hpd]
    simp [sizeJ]
  | Json.str s => by
    rw [printValue, printString]
    simp [sizeJ]
  | Json.arr [] => by rw [printValue]; simp [sizeJ, sizeL]
  | Json.arr (x :: xs) => by
    have h1 := sizeJ_le_printValue ind (lvl + 1) x
    have h2 := sizeL_le_printElemsTail ind (lvl + 1) xs
    rw [printValue]
    simp only [sizeJ, sizeL, List.length_cons, List.length_append, nlInd,
      List.length_replicate, List.length_singleton]
    omega
  | Json.obj [] => by rw [printValue]; simp [sizeJ, sizeM]
  | Json.obj (kv :: kvs) => by
    have h1 := sizeJ_le_printValue ind (lvl + 1) kv.2
    have h2 := sizeM_le_printMembersTail ind (lvl + 1) kvs
    rw [printValue]
    simp only [sizeJ, sizeM, List.length_cons, List.length_append, nlInd,
      List.length_replicate, List.length_singleton]
    omega

theorem sizeL_le_printElemsTail (ind lvl : Nat) :
    (xs : List Json) → sizeL xs ≤ (printElemsTail ind lvl xs).length
  | [] => by rw [printElemsTail]; simp [sizeL]
  | x :: xs => by
    have h1 := sizeJ_le_printValue ind lvl x
    have h2 := sizeL_le_printElemsTail ind lvl xs
    rw [printElemsTail]
    simp only [sizeL, List.length_cons, List.length_append, nlInd,
      List.length_replicate]
    omega

theorem sizeM_le_printMembersTail (ind lvl : Nat) :
    (kvs : List (String × Json)) → sizeM kvs ≤ (printMembersTail ind lvl kvs).length
  | [] => by rw [printMembersTail]; simp [sizeM]
  | kv :: kvs => by
    have h1 := sizeJ_le_printValue ind lvl kv.2
    have h2 := sizeM_le_printMembersTail ind lvl kvs
    rw [printMembersTail]
    simp only [sizeM, List.length_cons, List.length_append, nlInd,
      List.length_replicate]
    omega

end

/-! ### Top-level round trip -/

theorem jsonLoads_jsonDumps (j : Json) (indent : Int) :
    jsonLoads (jsonDumps j indent) = some j := by
  rw [jsonLoads, jsonDumps]
  have hdata : (String.mk (printValue indent.toNat 0 j)).data =
      printValue indent.toNat 0 j := rfl
  have hlen : (String.mk (printValue indent.toNat 0 j)).length =
      (printValue indent.toNat 0 j).length := rfl
  rw [hdata, hlen]
  have hparse := (parse_print ((printValue indent.toNat 0 j).length + 1)).1
    j indent.toNat 0 [] []
    (le_trans (sizeJ_le_printValue indent.toNat 0 j) (by omega))
    (by intro c hc; cases hc) numDelim_nil
  simp only [List.nil_append, List.append_nil] at hparse
  simp only [hparse]
  rfl

/-- C6. Serialization round-trips: for every constructed
`BenchmarkReport` and every indent, parsing the string produced by
`to_json` yields exactly the report's canonical mapping `to_dict`. -/
theorem to_json_roundtrip (r : BenchmarkReport) (indent : Int) :
    jsonLoads (BenchmarkReport.to_json r indent) =
      some (Json.obj (BenchmarkReport.to_dict r)) := by
  rw [BenchmarkReport.to_json]
  exact jsonLoads_jsonDumps (Json.obj r.to_dict) indent

end Zkbench
